import Mathlib

/-!
Lobby session engine of the Radio server (`server/index.js`).

A shallow embedding of the socket handlers of `server/index.js` and a
verification of its lobby, authority, voting and queue-ordering behaviour.

Modelling conventions.

* A JavaScript object used as a dictionary (`lobbies`, `lobby.users`) is an
  insertion-ordered association list.  Its keys are socket ids and uuids,
  which are never array-index-like strings nor names of `Object.prototype`
  members, so enumeration order is insertion order.
* A read `lobby.users[id]` with a target id chosen by the client finds, for an
  id that is no key of the object, the function the object inherits from
  `Object.prototype` under that name, if there is one (`inheritedName`); so does
  a read `lobbies[lobbyId]`, and the function it finds has no `users`, `host`,
  `queue` or `banned`.  The accessor `__proto__`, whose value has no `name`, is
  left out: events are taken not to carry it.
* A handler receives the registry, the id of the sending socket and the
  payload of the event, and returns the new registry with the list of
  messages it emitted, or `none` when it throws a `TypeError`.
* `uuidv4()` is an input of `create_lobby`: the identifier that was drawn.
* `console.log` has no effect on the registry or on any client and is left out.
-/

namespace Radio

/-! ## JavaScript objects as insertion-ordered maps -/

/-- Property read `o[k]`; `none` stands for `undefined`. -/
def objGet {β : Type} (o : List (String × β)) (k : String) : Option β :=
  match o with
  | [] => none
  | (k', v) :: rest => if k' = k then some v else objGet rest k

/-- Property write `o[k] = v`: an existing key keeps its place, a new key goes last. -/
def objSet {β : Type} (o : List (String × β)) (k : String) (v : β) : List (String × β) :=
  match o with
  | [] => [(k, v)]
  | (k', v') :: rest => if k' = k then (k, v) :: rest else (k', v') :: objSet rest k v

/-- Property removal `delete o[k]`. -/
def objDelete {β : Type} (o : List (String × β)) (k : String) : List (String × β) :=
  o.filter (fun p => p.1 ≠ k)

/-- The `name` of the function that a plain object `{}` inherits from
`Object.prototype` under the key `k`; `none` when it inherits no function there.
A read `o[k]` of a key that `o` does not own yields that function, a truthy value. -/
def inheritedName (k : String) : Option String :=
  if k = "constructor" then some "Object"
  else if k ∈ ["toString", "toLocaleString", "valueOf", "hasOwnProperty", "isPrototypeOf",
      "propertyIsEnumerable", "__defineGetter__", "__defineSetter__", "__lookupGetter__",
      "__lookupSetter__"] then some k
  else none

/-! ## Data model -/

abbrev ConnId := String
abbrev LobbyId := String

/-- A value of `lobby.users`: `{ name, isHost }`. -/
structure User where
  name : String
  isHost : Bool
  deriving DecidableEq, Repr

/-- A queue entry, as built by `add_video`. -/
structure Video where
  url : String
  addedBy : String
  likes : Int
  dislikes : Int
  likedBy : List ConnId
  dislikedBy : List ConnId
  played : Bool
  deriving DecidableEq, Repr

/-- A value of `lobbies`.  `banned` is `none` until the first ban creates the array. -/
structure Lobby where
  host : ConnId
  hostName : String
  users : List (ConnId × User)
  queue : List Video
  currentVideo : Option Video
  banned : Option (List ConnId)
  deriving DecidableEq, Repr

abbrev Lobbies := List (LobbyId × Lobby)

/-! ## Emitted messages -/

/-- One element of the `user_list` payload. -/
structure UserInfo where
  socketId : ConnId
  name : String
  isHost : Bool
  deriving DecidableEq, Repr

/-- One element of the `queue_updated` payload. -/
structure VideoView where
  video : Video
  likedByNames : List String
  dislikedByNames : List String
  deriving DecidableEq, Repr

/-- Payloads of the acknowledgement callback and of the emitted events. -/
inductive Msg where
  | created (lobbyId : LobbyId)
  | error (text : String)
  | success
  | joinInfo (lobbyId : LobbyId) (hostName : String) (users : List UserInfo)
      (queue : List Video) (currentVideo : Option Video)
  | user_joined (name : String)
  | user_left (name : String)
  | user_list (users : List UserInfo)
  | receive_message (user : String) (message : String) (timestamp : String)
  | queue_updated (queue : List VideoView)
  | video_skipped (video : Video)
  | kicked (lobbyId : LobbyId)
  | banned (lobbyId : LobbyId)
  | host_changed (newHost : String)
  | request_host_sync (requester : ConnId)
  | host_sync (time : Int) (state : String)
  | sync_play (time : Int)
  | sync_pause (time : Int)
  | sync_end
  deriving DecidableEq, Repr

/-- Where a message goes: the acknowledgement `callback(...)` of the request,
`io.to(room).emit` or `socket.to(room).emit` (the room without the sender). -/
inductive Dest where
  | callback
  | to (room : String)
  | others (room : String) (sender : ConnId)
  deriving DecidableEq, Repr

structure Emit where
  dest : Dest
  msg : Msg
  deriving DecidableEq, Repr

/-- The guarded acknowledgement `if (callback) callback(m)`. -/
def callback (cb : Bool) (m : Msg) : List Emit :=
  if cb then [⟨Dest.callback, m⟩] else []

/-- The payload `Object.entries(lobby.users).map(([socketId, u]) => ...)`. -/
def userList (users : List (ConnId × User)) : List UserInfo :=
  users.map fun p => ⟨p.1, p.2.name, p.2.isHost⟩

/-- The names `ids.map(id => lobby.users[id]?.name).filter(Boolean)`. -/
def namesOf (users : List (ConnId × User)) (ids : List ConnId) : List String :=
  (ids.filterMap fun id => (objGet users id).map fun u => u.name).filter fun n => n ≠ ""

/-- Helper `broadcastQueue(lobbyId)`. -/
def broadcastQueue (lobbies : Lobbies) (lobbyId : LobbyId) : List Emit :=
  match objGet lobbies lobbyId with
  | none => []
  | some lobby =>
    [⟨Dest.to lobbyId, Msg.queue_updated (lobby.queue.map fun video =>
      ⟨video, namesOf lobby.users video.likedBy, namesOf lobby.users video.dislikedBy⟩)⟩]

/-! ## The YouTube link pattern -/

/-- Removes the literal `p` from the front of `s`, if `s` starts with it. -/
def dropLit : List Char → List Char → Option (List Char)
  | [], s => some s
  | _ :: _, [] => none
  | a :: p, b :: s => if a = b then dropLit p s else none

/-- The characters that `.` does not match. -/
def isLineTerminator (c : Char) : Bool :=
  c.toNat = 0x0A || c.toNat = 0x0D || c.toNat = 0x2028 || c.toNat = 0x2029

/-- The test `/^(https?:\/\/)?(www\.)?(youtube\.com|youtu\.?be)\/.+/.test(url)`:
some choice of the optional groups and of the host alternative is followed by
`/` and by at least one character matched by `.`. -/
def ytRegexTest (url : String) : Bool :=
  ["https://", "http://", ""].any fun scheme =>
    ["www.", ""].any fun www =>
      ["youtube.com", "youtu.be", "youtube"].any fun host =>
        match dropLit (scheme ++ www ++ host ++ "/").toList url.toList with
        | some (c :: _) => !isLineTerminator c
        | _ => false

/-! ## Queue ordering -/

/-- The comparator passed to `rest.sort` in `reorderQueue`. -/
def compareVideos (activeUserNames : List String) (a b : Video) : Int :=
  if a.dislikes > 0 ∧ b.dislikes = 0 then 1
  else if b.dislikes > 0 ∧ a.dislikes = 0 then -1
  else if a.dislikes > 0 ∧ b.dislikes > 0 then 0
  else
    let aActive := decide (a.addedBy ∈ activeUserNames)
    let bActive := decide (b.addedBy ∈ activeUserNames)
    if aActive ∧ ¬ bActive then -1
    else if ¬ aActive ∧ bActive then 1
    else b.likes - a.likes

/-- Puts `a`, which stood before every element of the sorted list, in its place:
before the first element it does not have to follow. -/
def sortInsert {α : Type} (cmp : α → α → Int) (a : α) : List α → List α
  | [] => [a]
  | b :: l => if cmp a b ≤ 0 then a :: b :: l else b :: sortInsert cmp a l

/-- The stable sort `Array.prototype.sort(cmp)`: `cmp a b > 0` puts `b` first and
elements that compare equal keep their order. -/
def arraySort {α : Type} (cmp : α → α → Int) : List α → List α
  | [] => []
  | a :: l => sortInsert cmp a (arraySort cmp l)

/-- Helper `reorderQueue(lobby)`.  On an empty queue the destructuring yields
`current = undefined` and the queue `[undefined]`, on which the `broadcastQueue`
that always follows throws; that case is `none`. -/
def reorderQueue (lobby : Lobby) : Option Lobby :=
  let activeUserNames := lobby.users.map fun p => p.2.name
  match lobby.queue with
  | [] => none
  | current :: rest =>
    some { lobby with queue := current :: arraySort (compareVideos activeUserNames) rest }

/-! ## Socket handlers -/

abbrev Result := Option (Lobbies × List Emit)

/-- Handler of `create_lobby`; `lobbyId` is the value of `uuidv4()`. -/
def create_lobby (lobbies : Lobbies) (socket : ConnId) (lobbyId : LobbyId)
    (hostName : String) (cb : Bool) : Result :=
  let lobby : Lobby :=
    { host := socket, hostName := hostName, users := [], queue := [],
      currentVideo := none, banned := none }
  let lobby := { lobby with users := objSet lobby.users socket ⟨hostName, true⟩ }
  some (objSet lobbies lobbyId lobby, callback cb (Msg.created lobbyId))

/-- The test `lobby.banned && lobby.banned.includes(socket.id)`. -/
def isBanned (lobby : Lobby) (socket : ConnId) : Bool :=
  match lobby.banned with
  | none => false
  | some banned => decide (socket ∈ banned)

/-- Handler of `join_lobby`.  When `lobbies[lobbyId]` is an inherited function
the test `!lobby` lets it through and the write `lobby.users[socket.id] = ...`
throws, `lobby.users` being `undefined`. -/
def join_lobby (lobbies : Lobbies) (socket : ConnId) (lobbyId : LobbyId)
    (userName : String) (cb : Bool) : Result :=
  match objGet lobbies lobbyId with
  | none =>
    match inheritedName lobbyId with
    | none => some (lobbies, callback cb (Msg.error "Lobby not found"))
    | some _ => none
  | some lobby =>
    if isBanned lobby socket then
      some (lobbies, callback cb (Msg.error "You are banned from this lobby"))
    else
      let lobby := { lobby with users := objSet lobby.users socket ⟨userName, false⟩ }
      some (objSet lobbies lobbyId lobby,
        callback cb (Msg.joinInfo lobbyId lobby.hostName (userList lobby.users)
          lobby.queue lobby.currentVideo)
        ++ [⟨Dest.others lobbyId socket, Msg.user_joined userName⟩,
            ⟨Dest.to lobbyId, Msg.user_list (userList lobby.users)⟩])

/-- Handler of `send_message`; `now` is `new Date().toISOString()`.  When
`lobbies[lobbyId]` is an inherited function the read `lobby.users[socket.id]`
throws. -/
def send_message (lobbies : Lobbies) (socket : ConnId) (lobbyId : LobbyId)
    (message : String) (now : String) (cb : Bool) : Result :=
  match objGet lobbies lobbyId with
  | none =>
    match inheritedName lobbyId with
    | none => some (lobbies, [])
    | some _ => none
  | some lobby =>
    match objGet lobby.users socket with
    | none => some (lobbies, [])
    | some user =>
      some (lobbies,
        [⟨Dest.to lobbyId, Msg.receive_message user.name message now⟩]
        ++ callback cb Msg.success)

/-- Handler of `add_video`.  When `lobbies[lobbyId]` is an inherited function the
read `lobby.users[socket.id]` throws. -/
def add_video (lobbies : Lobbies) (socket : ConnId) (lobbyId : LobbyId)
    (url : String) (cb : Bool) : Result :=
  match objGet lobbies lobbyId with
  | none =>
    match inheritedName lobbyId with
    | none => some (lobbies, [])
    | some _ => none
  | some lobby =>
    match objGet lobby.users socket with
    | none => some (lobbies, [])
    | some user =>
      if ¬ ytRegexTest url then
        some (lobbies, callback cb (Msg.error "Invalid YouTube URL"))
      else if lobby.queue.any (fun v => decide (v.url = url)) then
        some (lobbies, callback cb (Msg.error "Video already in queue"))
      else
        let video : Video :=
          { url := url, addedBy := user.name, likes := 0, dislikes := 0,
            likedBy := [], dislikedBy := [], played := false }
        let lobbies := objSet lobbies lobbyId { lobby with queue := lobby.queue ++ [video] }
        some (lobbies, broadcastQueue lobbies lobbyId ++ callback cb Msg.success)

/-- Handler of `skip_video`. -/
def skip_video (lobbies : Lobbies) (socket : ConnId) (lobbyId : LobbyId) (cb : Bool) : Result :=
  match objGet lobbies lobbyId with
  | none => some (lobbies, callback cb (Msg.error "Only the host can skip videos"))
  | some lobby =>
    if lobby.host ≠ socket then
      some (lobbies, callback cb (Msg.error "Only the host can skip videos"))
    else
      match lobby.queue with
      | [] => some (lobbies, [])
      | video :: rest =>
        let video := { video with played := true }
        let lobbies := objSet lobbies lobbyId { lobby with queue := rest ++ [video] }
        some (lobbies,
          broadcastQueue lobbies lobbyId
          ++ [⟨Dest.to lobbyId, Msg.video_skipped video⟩]
          ++ callback cb Msg.success)

/-- Handler of `kick_user`.  The test `!lobby.users[userSocketId]` lets through a
member and also an id under which `lobby.users` inherits a function. -/
def kick_user (lobbies : Lobbies) (socket : ConnId) (lobbyId : LobbyId)
    (userSocketId : ConnId) (cb : Bool) : Result :=
  match objGet lobbies lobbyId with
  | none => some (lobbies, callback cb (Msg.error "Only the host can kick users"))
  | some lobby =>
    if lobby.host ≠ socket then
      some (lobbies, callback cb (Msg.error "Only the host can kick users"))
    else
      match objGet lobby.users userSocketId with
      | none =>
        match inheritedName userSocketId with
        | none => some (lobbies, callback cb (Msg.error "Invalid user to kick"))
        | some kickedUserName =>
          if userSocketId = socket then
            some (lobbies, callback cb (Msg.error "Invalid user to kick"))
          else
            let lobby := { lobby with users := objDelete lobby.users userSocketId }
            some (objSet lobbies lobbyId lobby,
              [⟨Dest.to userSocketId, Msg.kicked lobbyId⟩,
               ⟨Dest.to lobbyId, Msg.user_left kickedUserName⟩,
               ⟨Dest.to lobbyId, Msg.user_list (userList lobby.users)⟩]
              ++ callback cb Msg.success)
      | some kicked =>
        if userSocketId = socket then
          some (lobbies, callback cb (Msg.error "Invalid user to kick"))
        else
          let lobby := { lobby with users := objDelete lobby.users userSocketId }
          some (objSet lobbies lobbyId lobby,
            [⟨Dest.to userSocketId, Msg.kicked lobbyId⟩,
             ⟨Dest.to lobbyId, Msg.user_left kicked.name⟩,
             ⟨Dest.to lobbyId, Msg.user_list (userList lobby.users)⟩]
            ++ callback cb Msg.success)

/-- Handler of `delete_video`; `splice(index, 1)` runs with `0 ≤ index < length`. -/
def delete_video (lobbies : Lobbies) (socket : ConnId) (lobbyId : LobbyId)
    (index : Int) (cb : Bool) : Result :=
  match objGet lobbies lobbyId with
  | none => some (lobbies, [])
  | some lobby =>
    if lobby.host ≠ socket then some (lobbies, [])
    else if index ≥ 0 ∧ index < lobby.queue.length then
      let lobbies := objSet lobbies lobbyId { lobby with queue := lobby.queue.eraseIdx index.toNat }
      some (lobbies, broadcastQueue lobbies lobbyId ++ callback cb Msg.success)
    else some (lobbies, [])

/-- The common tail of the vote handlers:
`reorderQueue(lobby); broadcastQueue(lobbyId); if (callback) callback({ success: true })`. -/
def reorderAndBroadcast (lobbies : Lobbies) (lobbyId : LobbyId) (lobby : Lobby)
    (cb : Bool) : Result :=
  match reorderQueue lobby with
  | none => none
  | some lobby =>
    let lobbies := objSet lobbies lobbyId lobby
    some (lobbies, broadcastQueue lobbies lobbyId ++ callback cb Msg.success)

/-- Handler of `like_video`.  When `lobbies[lobbyId]` is an inherited function
the read `lobby.users[socket.id]` throws. -/
def like_video (lobbies : Lobbies) (socket : ConnId) (lobbyId : LobbyId)
    (undo : Bool) (cb : Bool) : Result :=
  match objGet lobbies lobbyId with
  | none =>
    match inheritedName lobbyId with
    | none => some (lobbies, [])
    | some _ => none
  | some lobby =>
    match objGet lobby.users socket with
    | none => some (lobbies, [])
    | some _ =>
      match lobby.queue with
      | [] => some (lobbies, [])
      | video :: rest =>
        if undo then
          if socket ∈ video.likedBy then
            let video :=
              { video with likes := video.likes - 1, likedBy := video.likedBy.erase socket }
            reorderAndBroadcast lobbies lobbyId { lobby with queue := video :: rest } cb
          else some (lobbies, [])
        else if socket ∉ video.likedBy then
          let video :=
            { video with likes := video.likes + 1, likedBy := video.likedBy ++ [socket] }
          let video :=
            if socket ∈ video.dislikedBy then
              { video with dislikes := video.dislikes - 1,
                           dislikedBy := video.dislikedBy.erase socket }
            else video
          reorderAndBroadcast lobbies lobbyId { lobby with queue := video :: rest } cb
        else some (lobbies, [])

/-- Handler of `dislike_video`; it throws where `like_video` does. -/
def dislike_video (lobbies : Lobbies) (socket : ConnId) (lobbyId : LobbyId)
    (undo : Bool) (cb : Bool) : Result :=
  match objGet lobbies lobbyId with
  | none =>
    match inheritedName lobbyId with
    | none => some (lobbies, [])
    | some _ => none
  | some lobby =>
    match objGet lobby.users socket with
    | none => some (lobbies, [])
    | some _ =>
      match lobby.queue with
      | [] => some (lobbies, [])
      | video :: rest =>
        if undo then
          if socket ∈ video.dislikedBy then
            let video :=
              { video with dislikes := video.dislikes - 1,
                           dislikedBy := video.dislikedBy.erase socket }
            reorderAndBroadcast lobbies lobbyId { lobby with queue := video :: rest } cb
          else some (lobbies, [])
        else if socket ∉ video.dislikedBy then
          let video :=
            { video with dislikes := video.dislikes + 1,
                         dislikedBy := video.dislikedBy ++ [socket] }
          let video :=
            if socket ∈ video.likedBy then
              { video with likes := video.likes - 1, likedBy := video.likedBy.erase socket }
            else video
          reorderAndBroadcast lobbies lobbyId { lobby with queue := video :: rest } cb
        else some (lobbies, [])

/-- Handler of `ban_user`; the target test is that of `kick_user`. -/
def ban_user (lobbies : Lobbies) (socket : ConnId) (lobbyId : LobbyId)
    (userSocketId : ConnId) (cb : Bool) : Result :=
  match objGet lobbies lobbyId with
  | none => some (lobbies, callback cb (Msg.error "Only the host can ban users"))
  | some lobby =>
    if lobby.host ≠ socket then
      some (lobbies, callback cb (Msg.error "Only the host can ban users"))
    else
      match objGet lobby.users userSocketId with
      | none =>
        match inheritedName userSocketId with
        | none => some (lobbies, callback cb (Msg.error "Invalid user to ban"))
        | some bannedUserName =>
          if userSocketId = socket then
            some (lobbies, callback cb (Msg.error "Invalid user to ban"))
          else
            let lobby := { lobby with banned := some ((lobby.banned.getD []) ++ [userSocketId]) }
            let lobby := { lobby with users := objDelete lobby.users userSocketId }
            some (objSet lobbies lobbyId lobby,
              [⟨Dest.to userSocketId, Msg.banned lobbyId⟩,
               ⟨Dest.to lobbyId, Msg.user_left bannedUserName⟩,
               ⟨Dest.to lobbyId, Msg.user_list (userList lobby.users)⟩]
              ++ callback cb Msg.success)
      | some bannedUser =>
        if userSocketId = socket then
          some (lobbies, callback cb (Msg.error "Invalid user to ban"))
        else
          let lobby := { lobby with banned := some ((lobby.banned.getD []) ++ [userSocketId]) }
          let lobby := { lobby with users := objDelete lobby.users userSocketId }
          some (objSet lobbies lobbyId lobby,
            [⟨Dest.to userSocketId, Msg.banned lobbyId⟩,
             ⟨Dest.to lobbyId, Msg.user_left bannedUser.name⟩,
             ⟨Dest.to lobbyId, Msg.user_list (userList lobby.users)⟩]
            ++ callback cb Msg.success)

/-- Handler of `transfer_host`.  The two writes `lobby.users[id].isHost = ...`
throw when `lobby.users[id]` is `undefined`; when `lobby.users[newHostSocketId]`
is an inherited function the write lands on that function and `lobby.users`
keeps its entries. -/
def transfer_host (lobbies : Lobbies) (socket : ConnId) (lobbyId : LobbyId)
    (newHostSocketId : ConnId) (cb : Bool) : Result :=
  match objGet lobbies lobbyId with
  | none => some (lobbies, callback cb (Msg.error "Only the host can transfer host role"))
  | some lobby =>
    if lobby.host ≠ socket then
      some (lobbies, callback cb (Msg.error "Only the host can transfer host role"))
    else
      match objGet lobby.users newHostSocketId with
      | none =>
        match inheritedName newHostSocketId with
        | none => some (lobbies, callback cb (Msg.error "Invalid user to transfer host role"))
        | some newHostName =>
          if newHostSocketId = socket then
            some (lobbies, callback cb (Msg.error "Invalid user to transfer host role"))
          else
            match objGet lobby.users socket with
            | none => none
            | some me =>
              let lobby :=
                { lobby with users := objSet lobby.users socket { me with isHost := false } }
              let lobby := { lobby with host := newHostSocketId }
              let lobby := { lobby with hostName := newHostName }
              some (objSet lobbies lobbyId lobby,
                [⟨Dest.to lobbyId, Msg.host_changed lobby.hostName⟩,
                 ⟨Dest.to lobbyId, Msg.user_list (userList lobby.users)⟩]
                ++ callback cb Msg.success)
      | some _ =>
        if newHostSocketId = socket then
          some (lobbies, callback cb (Msg.error "Invalid user to transfer host role"))
        else
          match objGet lobby.users socket with
          | none => none
          | some me =>
            let lobby := { lobby with users := objSet lobby.users socket { me with isHost := false } }
            match objGet lobby.users newHostSocketId with
            | none => none
            | some newHost =>
              let lobby :=
                { lobby with
                  users := objSet lobby.users newHostSocketId { newHost with isHost := true } }
              let lobby := { lobby with host := newHostSocketId }
              let lobby := { lobby with hostName := newHost.name }
              some (objSet lobbies lobbyId lobby,
                [⟨Dest.to lobbyId, Msg.host_changed lobby.hostName⟩,
                 ⟨Dest.to lobbyId, Msg.user_list (userList lobby.users)⟩]
                ++ callback cb Msg.success)

/-- Handler of `request_sync`. -/
def request_sync (lobbies : Lobbies) (socket : ConnId) (lobbyId : LobbyId) : Result :=
  match objGet lobbies lobbyId with
  | none => some (lobbies, [])
  | some lobby =>
    if lobby.host = "" then some (lobbies, [])
    else some (lobbies, [⟨Dest.to lobby.host, Msg.request_host_sync socket⟩])

/-- Handler of `host_sync`. -/
def host_sync (lobbies : Lobbies) (requester : ConnId) (time : Int) (state : String) : Result :=
  some (lobbies, [⟨Dest.to requester, Msg.host_sync time state⟩])

/-- The loop `for (const [lobbyId, lobby] of Object.entries(lobbies))` of the
`disconnect` handler, over the entries still to visit: the first lobby that
holds the socket is cleaned up and the loop breaks. -/
def disconnectLoop (lobbies : Lobbies) (socket : ConnId) :
    List (LobbyId × Lobby) → Lobbies × List Emit
  | [] => (lobbies, [])
  | (lobbyId, lobby) :: entries =>
    match objGet lobby.users socket with
    | none => disconnectLoop lobbies socket entries
    | some user =>
      let wasHost := user.isHost
      let userName := user.name
      let lobby := { lobby with users := objDelete lobby.users socket }
      let out : List Emit :=
        [⟨Dest.others lobbyId socket, Msg.user_left userName⟩,
         ⟨Dest.to lobbyId, Msg.user_list (userList lobby.users)⟩]
      if wasHost then
        match lobby.users with
        | (newHostId, newHost) :: _ =>
          let lobby :=
            { lobby with users := objSet lobby.users newHostId { newHost with isHost := true } }
          let lobby := { lobby with host := newHostId }
          let lobby := { lobby with hostName := newHost.name }
          (objSet lobbies lobbyId lobby,
            out ++ [⟨Dest.to lobbyId, Msg.host_changed lobby.hostName⟩])
        | [] => (objDelete lobbies lobbyId, out)
      else (objSet lobbies lobbyId lobby, out)

/-- Handler of `disconnect`. -/
def disconnect (lobbies : Lobbies) (socket : ConnId) : Result :=
  some (disconnectLoop lobbies socket lobbies)

/-! ## Events and runs -/

/-- The events a client sends.  For `sync_play`, `sync_pause` and `sync_end`,
which the client emits in `handlePlay`, `handlePause` and `handleEnd`, the
server registers no listener. -/
inductive Event where
  | create_lobby (uuid : LobbyId) (hostName : String) (cb : Bool)
  | join_lobby (lobbyId : LobbyId) (userName : String) (cb : Bool)
  | send_message (lobbyId : LobbyId) (message : String) (now : String) (cb : Bool)
  | add_video (lobbyId : LobbyId) (url : String) (cb : Bool)
  | skip_video (lobbyId : LobbyId) (cb : Bool)
  | kick_user (lobbyId : LobbyId) (userSocketId : ConnId) (cb : Bool)
  | delete_video (lobbyId : LobbyId) (index : Int) (cb : Bool)
  | like_video (lobbyId : LobbyId) (undo : Bool) (cb : Bool)
  | dislike_video (lobbyId : LobbyId) (undo : Bool) (cb : Bool)
  | ban_user (lobbyId : LobbyId) (userSocketId : ConnId) (cb : Bool)
  | transfer_host (lobbyId : LobbyId) (newHostSocketId : ConnId) (cb : Bool)
  | request_sync (lobbyId : LobbyId)
  | host_sync (lobbyId : LobbyId) (requester : ConnId) (time : Int) (state : String)
  | disconnect
  | sync_play (lobbyId : LobbyId) (time : Int)
  | sync_pause (lobbyId : LobbyId) (time : Int)
  | sync_end (lobbyId : LobbyId)
  deriving DecidableEq, Repr

/-- Dispatch of one event of socket `socket` to the listener registered for it
by `io.on('connection', ...)`; an event without listener is dropped. -/
def handle (lobbies : Lobbies) (socket : ConnId) : Event → Result
  | Event.create_lobby uuid hostName cb => create_lobby lobbies socket uuid hostName cb
  | Event.join_lobby lobbyId userName cb => join_lobby lobbies socket lobbyId userName cb
  | Event.send_message lobbyId message now cb =>
    send_message lobbies socket lobbyId message now cb
  | Event.add_video lobbyId url cb => add_video lobbies socket lobbyId url cb
  | Event.skip_video lobbyId cb => skip_video lobbies socket lobbyId cb
  | Event.kick_user lobbyId userSocketId cb => kick_user lobbies socket lobbyId userSocketId cb
  | Event.delete_video lobbyId index cb => delete_video lobbies socket lobbyId index cb
  | Event.like_video lobbyId undo cb => like_video lobbies socket lobbyId undo cb
  | Event.dislike_video lobbyId undo cb => dislike_video lobbies socket lobbyId undo cb
  | Event.ban_user lobbyId userSocketId cb => ban_user lobbies socket lobbyId userSocketId cb
  | Event.transfer_host lobbyId newHostSocketId cb =>
    transfer_host lobbies socket lobbyId newHostSocketId cb
  | Event.request_sync lobbyId => request_sync lobbies socket lobbyId
  | Event.host_sync _ requester time state => host_sync lobbies requester time state
  | Event.disconnect => disconnect lobbies socket
  | Event.sync_play _ _ => some (lobbies, [])
  | Event.sync_pause _ _ => some (lobbies, [])
  | Event.sync_end _ => some (lobbies, [])

/-- The registry after a sequence of events, each with the socket that sent it,
and the messages emitted on the way; `none` once a handler has thrown. -/
def run (lobbies : Lobbies) : List (ConnId × Event) → Option (Lobbies × List Emit)
  | [] => some (lobbies, [])
  | (socket, e) :: es =>
    match handle lobbies socket e with
    | none => none
    | some (lobbies, out) =>
      match run lobbies es with
      | none => none
      | some (final, outs) => some (final, out ++ outs)

/-- The registries the server can be in: `const lobbies = {}` at start, then one
handled event after another. -/
inductive Reachable : Lobbies → Prop where
  | init : Reachable []
  | step {lobbies next : Lobbies} {out : List Emit} (socket : ConnId) (e : Event) :
      Reachable lobbies → handle lobbies socket e = some (next, out) → Reachable next

/-- The number of members of a lobby whose `isHost` flag is set. -/
def hostCount (lobby : Lobby) : Nat :=
  (lobby.users.filter fun p => p.2.isHost).length

/-- The host-only actions addressed to lobby `lobbyId`. -/
def privileged (lobbyId : LobbyId) : Event → Bool
  | Event.skip_video l _ => l = lobbyId
  | Event.delete_video l _ _ => l = lobbyId
  | Event.kick_user l _ _ => l = lobbyId
  | Event.ban_user l _ _ => l = lobbyId
  | Event.transfer_host l _ _ => l = lobbyId
  | _ => false

/-! ## What one event does to one lobby -/

/-- The lobby built by `create_lobby` for socket `c`. -/
def freshLobby (c : ConnId) (hostName : String) : Lobby :=
  { host := c, hostName := hostName, users := [(c, ⟨hostName, true⟩)], queue := [],
    currentVideo := none, banned := none }

/-- The entry built by `add_video`. -/
def newVideo (url addedBy : String) : Video :=
  { url := url, addedBy := addedBy, likes := 0, dislikes := 0, likedBy := [],
    dislikedBy := [], played := false }

/-- The head after `like_video` with `undo`, when `c` had liked it. -/
def likeUndone (c : ConnId) (v : Video) : Video :=
  { v with likes := v.likes - 1, likedBy := v.likedBy.erase c }

/-- The head after `dislike_video` with `undo`, when `c` had disliked it. -/
def dislikeUndone (c : ConnId) (v : Video) : Video :=
  { v with dislikes := v.dislikes - 1, dislikedBy := v.dislikedBy.erase c }

/-- The head after `like_video` without `undo`, when `c` had not liked it. -/
def liked (c : ConnId) (v : Video) : Video :=
  let v := { v with likes := v.likes + 1, likedBy := v.likedBy ++ [c] }
  if c ∈ v.dislikedBy then
    { v with dislikes := v.dislikes - 1, dislikedBy := v.dislikedBy.erase c }
  else v

/-- The head after `dislike_video` without `undo`, when `c` had not disliked it. -/
def disliked (c : ConnId) (v : Video) : Video :=
  let v := { v with dislikes := v.dislikes + 1, dislikedBy := v.dislikedBy ++ [c] }
  if c ∈ v.likedBy then
    { v with likes := v.likes - 1, likedBy := v.likedBy.erase c }
  else v

/-- The lobby after a vote turned the head into `head` and `reorderQueue` ran. -/
def reordered (lobby : Lobby) (head : Video) (rest : List Video) : Lobby :=
  { lobby with
    queue := head :: arraySort (compareVideos (lobby.users.map fun p => p.2.name)) rest }

/-- The changes a single event of socket `c` makes to a registered lobby. -/
inductive LobbyStep (c : ConnId) : Lobby → Lobby → Prop where
  | join (lobby : Lobby) (userName : String) (hb : isBanned lobby c = false) :
      LobbyStep c lobby { lobby with users := objSet lobby.users c ⟨userName, false⟩ }
  | add (lobby : Lobby) (user : User) (url : String)
      (hu : objGet lobby.users c = some user) (hre : ytRegexTest url = true)
      (hdup : lobby.queue.any (fun v => decide (v.url = url)) = false) :
      LobbyStep c lobby { lobby with queue := lobby.queue ++ [newVideo url user.name] }
  | skip (lobby : Lobby) (video : Video) (rest : List Video)
      (hh : lobby.host = c) (hq : lobby.queue = video :: rest) :
      LobbyStep c lobby { lobby with queue := rest ++ [{ video with played := true }] }
  | kick (lobby : Lobby) (target : ConnId) (u : User)
      (hh : lobby.host = c) (ht : objGet lobby.users target = some u) (hne : target ≠ c) :
      LobbyStep c lobby { lobby with users := objDelete lobby.users target }
  | delete (lobby : Lobby) (index : Int)
      (hh : lobby.host = c) (h0 : 0 ≤ index) (h1 : index < lobby.queue.length) :
      LobbyStep c lobby { lobby with queue := lobby.queue.eraseIdx index.toNat }
  | likeUndo (lobby : Lobby) (user : User) (video : Video) (rest : List Video)
      (hu : objGet lobby.users c = some user) (hq : lobby.queue = video :: rest)
      (hv : c ∈ video.likedBy) :
      LobbyStep c lobby (reordered lobby (likeUndone c video) rest)
  | like (lobby : Lobby) (user : User) (video : Video) (rest : List Video)
      (hu : objGet lobby.users c = some user) (hq : lobby.queue = video :: rest)
      (hv : c ∉ video.likedBy) :
      LobbyStep c lobby (reordered lobby (liked c video) rest)
  | dislikeUndo (lobby : Lobby) (user : User) (video : Video) (rest : List Video)
      (hu : objGet lobby.users c = some user) (hq : lobby.queue = video :: rest)
      (hv : c ∈ video.dislikedBy) :
      LobbyStep c lobby (reordered lobby (dislikeUndone c video) rest)
  | dislike (lobby : Lobby) (user : User) (video : Video) (rest : List Video)
      (hu : objGet lobby.users c = some user) (hq : lobby.queue = video :: rest)
      (hv : c ∉ video.dislikedBy) :
      LobbyStep c lobby (reordered lobby (disliked c video) rest)
  | ban (lobby : Lobby) (target : ConnId) (u : User)
      (hh : lobby.host = c) (ht : objGet lobby.users target = some u) (hne : target ≠ c) :
      LobbyStep c lobby
        { lobby with banned := some (lobby.banned.getD [] ++ [target]),
                     users := objDelete lobby.users target }
  | transfer (lobby : Lobby) (target : ConnId) (u me newHost : User)
      (hh : lobby.host = c) (ht : objGet lobby.users target = some u) (hne : target ≠ c)
      (hme : objGet lobby.users c = some me)
      (hnew : objGet (objSet lobby.users c { me with isHost := false }) target = some newHost) :
      LobbyStep c lobby
        { lobby with
          users := objSet (objSet lobby.users c { me with isHost := false }) target
            { newHost with isHost := true },
          host := target, hostName := newHost.name }
  | kickInherited (lobby : Lobby) (target : ConnId) (name : String)
      (hh : lobby.host = c) (ht : objGet lobby.users target = none)
      (hin : inheritedName target = some name) (hne : target ≠ c) :
      LobbyStep c lobby { lobby with users := objDelete lobby.users target }
  | banInherited (lobby : Lobby) (target : ConnId) (name : String)
      (hh : lobby.host = c) (ht : objGet lobby.users target = none)
      (hin : inheritedName target = some name) (hne : target ≠ c) :
      LobbyStep c lobby
        { lobby with banned := some (lobby.banned.getD [] ++ [target]),
                     users := objDelete lobby.users target }
  | transferInherited (lobby : Lobby) (target : ConnId) (name : String) (me : User)
      (hh : lobby.host = c) (ht : objGet lobby.users target = none)
      (hin : inheritedName target = some name) (hne : target ≠ c)
      (hme : objGet lobby.users c = some me) :
      LobbyStep c lobby
        { lobby with
          users := objSet lobby.users c { me with isHost := false },
          host := target, hostName := name }
  | leave (lobby : Lobby) (user : User)
      (hu : objGet lobby.users c = some user) (hf : user.isHost = false) :
      LobbyStep c lobby { lobby with users := objDelete lobby.users c }
  | leavePromote (lobby : Lobby) (user : User) (newHostId : ConnId) (newHost : User)
      (others : List (ConnId × User))
      (hu : objGet lobby.users c = some user) (hf : user.isHost = true)
      (hrest : objDelete lobby.users c = (newHostId, newHost) :: others) :
      LobbyStep c lobby
        { lobby with
          users := objSet (objDelete lobby.users c) newHostId { newHost with isHost := true },
          host := newHostId, hostName := newHost.name }

/-- The changes that an event of socket `c` other than its disconnect makes to a
registered lobby: the steps of `ActionStep` in which `c` does not leave. -/
inductive ActionStep (c : ConnId) : Lobby → Lobby → Prop where
  | join (lobby : Lobby) (userName : String) (hb : isBanned lobby c = false) :
      ActionStep c lobby { lobby with users := objSet lobby.users c ⟨userName, false⟩ }
  | add (lobby : Lobby) (user : User) (url : String)
      (hu : objGet lobby.users c = some user) (hre : ytRegexTest url = true)
      (hdup : lobby.queue.any (fun v => decide (v.url = url)) = false) :
      ActionStep c lobby { lobby with queue := lobby.queue ++ [newVideo url user.name] }
  | skip (lobby : Lobby) (video : Video) (rest : List Video)
      (hh : lobby.host = c) (hq : lobby.queue = video :: rest) :
      ActionStep c lobby { lobby with queue := rest ++ [{ video with played := true }] }
  | kick (lobby : Lobby) (target : ConnId) (u : User)
      (hh : lobby.host = c) (ht : objGet lobby.users target = some u) (hne : target ≠ c) :
      ActionStep c lobby { lobby with users := objDelete lobby.users target }
  | delete (lobby : Lobby) (index : Int)
      (hh : lobby.host = c) (h0 : 0 ≤ index) (h1 : index < lobby.queue.length) :
      ActionStep c lobby { lobby with queue := lobby.queue.eraseIdx index.toNat }
  | likeUndo (lobby : Lobby) (user : User) (video : Video) (rest : List Video)
      (hu : objGet lobby.users c = some user) (hq : lobby.queue = video :: rest)
      (hv : c ∈ video.likedBy) :
      ActionStep c lobby (reordered lobby (likeUndone c video) rest)
  | like (lobby : Lobby) (user : User) (video : Video) (rest : List Video)
      (hu : objGet lobby.users c = some user) (hq : lobby.queue = video :: rest)
      (hv : c ∉ video.likedBy) :
      ActionStep c lobby (reordered lobby (liked c video) rest)
  | dislikeUndo (lobby : Lobby) (user : User) (video : Video) (rest : List Video)
      (hu : objGet lobby.users c = some user) (hq : lobby.queue = video :: rest)
      (hv : c ∈ video.dislikedBy) :
      ActionStep c lobby (reordered lobby (dislikeUndone c video) rest)
  | dislike (lobby : Lobby) (user : User) (video : Video) (rest : List Video)
      (hu : objGet lobby.users c = some user) (hq : lobby.queue = video :: rest)
      (hv : c ∉ video.dislikedBy) :
      ActionStep c lobby (reordered lobby (disliked c video) rest)
  | ban (lobby : Lobby) (target : ConnId) (u : User)
      (hh : lobby.host = c) (ht : objGet lobby.users target = some u) (hne : target ≠ c) :
      ActionStep c lobby
        { lobby with banned := some (lobby.banned.getD [] ++ [target]),
                     users := objDelete lobby.users target }
  | transfer (lobby : Lobby) (target : ConnId) (u me newHost : User)
      (hh : lobby.host = c) (ht : objGet lobby.users target = some u) (hne : target ≠ c)
      (hme : objGet lobby.users c = some me)
      (hnew : objGet (objSet lobby.users c { me with isHost := false }) target = some newHost) :
      ActionStep c lobby
        { lobby with
          users := objSet (objSet lobby.users c { me with isHost := false }) target
            { newHost with isHost := true },
          host := target, hostName := newHost.name }
  | kickInherited (lobby : Lobby) (target : ConnId) (name : String)
      (hh : lobby.host = c) (ht : objGet lobby.users target = none)
      (hin : inheritedName target = some name) (hne : target ≠ c) :
      ActionStep c lobby { lobby with users := objDelete lobby.users target }
  | banInherited (lobby : Lobby) (target : ConnId) (name : String)
      (hh : lobby.host = c) (ht : objGet lobby.users target = none)
      (hin : inheritedName target = some name) (hne : target ≠ c) :
      ActionStep c lobby
        { lobby with banned := some (lobby.banned.getD [] ++ [target]),
                     users := objDelete lobby.users target }
  | transferInherited (lobby : Lobby) (target : ConnId) (name : String) (me : User)
      (hh : lobby.host = c) (ht : objGet lobby.users target = none)
      (hin : inheritedName target = some name) (hne : target ≠ c)
      (hme : objGet lobby.users c = some me) :
      ActionStep c lobby
        { lobby with
          users := objSet lobby.users c { me with isHost := false },
          host := target, hostName := name }

/-- The vote bookkeeping of a queue entry: the counters are the sizes of the
voter arrays and no socket is in both arrays. -/
def VotesConsistent (v : Video) : Prop :=
  v.likes = v.likedBy.length ∧ v.dislikes = v.dislikedBy.length
    ∧ ∀ id, id ∈ v.likedBy → id ∉ v.dislikedBy

/-- Consistent votes with no socket listed twice in a voter array. -/
def VideoWF (v : Video) : Prop :=
  VotesConsistent v ∧ v.likedBy.Nodup ∧ v.dislikedBy.Nodup

/-- The shape of the registry after one handler other than `create_lobby` ran:
unchanged, or one registered lobby replaced by a step of it, or the lobby that
its flagged last member left removed. -/
def RegistryAfter (s : Lobbies) (c : ConnId) (t : Lobbies) : Prop :=
  t = s
  ∨ (∃ lobbyId lobby next, (lobbyId, lobby) ∈ s ∧ LobbyStep c lobby next
      ∧ t = objSet s lobbyId next)
  ∨ (∃ lobbyId lobby user, (lobbyId, lobby) ∈ s ∧ objGet lobby.users c = some user
      ∧ user.isHost = true ∧ objDelete lobby.users c = [] ∧ t = objDelete s lobbyId)

/-- The shape of the registry after a handler other than `create_lobby` and
`disconnect` ran: unchanged, or one registered lobby replaced by a step of it
in which the sender does not leave. -/
def ActionAfter (s : Lobbies) (c : ConnId) (t : Lobbies) : Prop :=
  t = s
  ∨ ∃ lobbyId lobby next, (lobbyId, lobby) ∈ s ∧ ActionStep c lobby next
      ∧ t = objSet s lobbyId next

/-- The shape of a registry entry after one handler ran: untouched, or a step
of the entry registered under the same identifier. -/
def EntryAfter (s : Lobbies) (c : ConnId) (p : LobbyId × Lobby) : Prop :=
  p ∈ s ∨ ∃ lobby, (p.1, lobby) ∈ s ∧ LobbyStep c lobby p.2

/-- Every entry of the queue of the lobby has well-formed votes. -/
def QueueWF (lobby : Lobby) : Prop := ∀ v ∈ lobby.queue, VideoWF v

/-! ## Example registries and auxiliary predicates -/

/-- A lobby created by socket `a` as Alice, joined by socket `b` as Bob, whose
queue holds one video added by Alice. -/
def twoMemberLobby : Lobby :=
  { host := "a", hostName := "Alice",
    users := [("a", ⟨"Alice", true⟩), ("b", ⟨"Bob", false⟩)],
    queue := [{ url := "https://youtu.be/abc12345678", addedBy := "Alice", likes := 0,
                dislikes := 0, likedBy := [], dislikedBy := [], played := false }],
    currentVideo := none, banned := none }

/-- The registry that holds `twoMemberLobby` under the identifier `L`. -/
def twoMemberRegistry : Lobbies := [("L", twoMemberLobby)]

/-- The head of `twoMemberLobby` after Bob liked it and Alice disliked it. -/
def votedVideo : Video :=
  { url := "https://youtu.be/abc12345678", addedBy := "Alice", likes := 1, dislikes := 1,
    likedBy := ["b"], dislikedBy := ["a"], played := false }

/-- The lobby `twoMemberLobby` after the two votes. -/
def votedLobby : Lobby := { twoMemberLobby with queue := [votedVideo] }

/-- The lobby `twoMemberLobby` after its host banned Bob. -/
def bannedLobby : Lobby :=
  { twoMemberLobby with users := [("a", ⟨"Alice", true⟩)], banned := some ["b"] }

/-- The lobby `bannedLobby` after socket `c` joined as Carol and was made host. -/
def transferredLobby : Lobby :=
  { bannedLobby with
    host := "c", hostName := "Carol",
    users := [("a", ⟨"Alice", false⟩), ("c", ⟨"Carol", true⟩)] }

/-- A head liked by Alice. -/
def headVideo : Video :=
  { url := "youtu.be/h", addedBy := "Alice", likes := 1, dislikes := 0,
    likedBy := ["a"], dislikedBy := [], played := false }

/-- A played entry added by Bob and disliked by Alice. -/
def staleX : Video :=
  { url := "youtu.be/x", addedBy := "Bob", likes := 0, dislikes := 1,
    likedBy := [], dislikedBy := ["a"], played := true }

/-- A played entry added by Alice and disliked by Alice. -/
def staleY : Video :=
  { url := "youtu.be/y", addedBy := "Alice", likes := 0, dislikes := 1,
    likedBy := [], dislikedBy := ["a"], played := true }

/-- A lobby whose only member is Alice, with two disliked entries behind the head:
the first added by Bob, who has left, the second by Alice. -/
def staleLobby : Lobby :=
  { host := "a", hostName := "Alice", users := [("a", ⟨"Alice", true⟩)],
    queue := [headVideo, staleX, staleY], currentVideo := none, banned := none }

/-- A lobby whose only member is Alice, with a disliked entry, an entry added by
the absent Bob and an entry added by Alice behind the head. -/
def mixedLobby : Lobby :=
  { host := "a", hostName := "Alice", users := [("a", ⟨"Alice", true⟩)],
    queue := [headVideo, staleX, newVideo "youtu.be/b" "Bob", newVideo "youtu.be/a" "Alice"],
    currentVideo := none, banned := none }

/-- The lobby `mixedLobby` after `reorderQueue`. -/
def mixedLobbySorted : Lobby :=
  { mixedLobby with
    queue := [headVideo, newVideo "youtu.be/a" "Alice", newVideo "youtu.be/b" "Bob", staleX] }

/-- The urls of the queue are pairwise distinct and each matches the link pattern. -/
def UrlsOk (lobby : Lobby) : Prop :=
  (lobby.queue.map fun v => v.url).Nodup ∧ ∀ v ∈ lobby.queue, ytRegexTest v.url = true

/-- The entry at position 0 of the queue of lobby `lobbyId`. -/
def headOf (s : Lobbies) (lobbyId : LobbyId) : Option Video :=
  (objGet s lobbyId).bind fun lobby => lobby.queue.head?

/-- What a like of socket `c` has made of the head: `c` is a liker and no
disliker, `likes` grew by one unless `c` had liked, `dislikes` dropped by one if
`c` had disliked. -/
def LikeOutcome (c : ConnId) (before after : Video) : Prop :=
  c ∈ after.likedBy ∧ c ∉ after.dislikedBy
    ∧ after.likes = before.likes + (if c ∈ before.likedBy then 0 else 1)
    ∧ after.dislikes = before.dislikes - (if c ∈ before.dislikedBy then 1 else 0)

/-- What a dislike of socket `c` has made of the head, symmetrically. -/
def DislikeOutcome (c : ConnId) (before after : Video) : Prop :=
  c ∈ after.dislikedBy ∧ c ∉ after.likedBy
    ∧ after.dislikes = before.dislikes + (if c ∈ before.dislikedBy then 0 else 1)
    ∧ after.likes = before.likes - (if c ∈ before.likedBy then 1 else 0)

/-- A lobby of Alice (socket `a`, host) and Bob (socket `b`) with an empty queue. -/
def pairLobby : Lobby :=
  { host := "a", hostName := "Alice",
    users := [("a", ⟨"Alice", true⟩), ("b", ⟨"Bob", false⟩)],
    queue := [], currentVideo := none, banned := none }

/-- Two lobbies created by socket `a`; Bob has joined the second. -/
def twoLobbyRegistry : Lobbies := [("L1", freshLobby "a" "Alice"), ("L2", pairLobby)]

/-- The lobby `pairLobby` after its host sent `join_lobby` for it. -/
def rejoinedLobby : Lobby :=
  { pairLobby with users := [("a", ⟨"Alice", false⟩), ("b", ⟨"Bob", false⟩)] }

/-- The rotation that the specification gives for a skip: the head is removed,
marked `played` and appended at the tail; an empty queue stays empty. -/
def specSkip : List Video → List Video
  | [] => []
  | head :: rest => rest ++ [{ head with played := true }]

/-- The lobby identifier that an event carries. -/
def eventLobby : Event → Option LobbyId
  | Event.create_lobby _ _ _ => none
  | Event.join_lobby l _ _ => some l
  | Event.send_message l _ _ _ => some l
  | Event.add_video l _ _ => some l
  | Event.skip_video l _ => some l
  | Event.kick_user l _ _ => some l
  | Event.delete_video l _ _ => some l
  | Event.like_video l _ _ => some l
  | Event.dislike_video l _ _ => some l
  | Event.ban_user l _ _ => some l
  | Event.transfer_host l _ _ => some l
  | Event.request_sync l => some l
  | Event.host_sync l _ _ _ => some l
  | Event.disconnect => none
  | Event.sync_play l _ => some l
  | Event.sync_pause l _ => some l
  | Event.sync_end l => some l

/-- The registries the server can be in when no socket sends an event after its
own `disconnect`, with the sockets that have disconnected so far.  The id of a
socket is drawn by the transport and names no inherited member. -/
inductive LiveReachable : Lobbies → List ConnId → Prop where
  | init : LiveReachable [] []
  | step {lobbies next : Lobbies} {gone : List ConnId} {out : List Emit}
      (socket : ConnId) (e : Event) :
      LiveReachable lobbies gone → socket ∉ gone → inheritedName socket = none →
      handle lobbies socket e = some (next, out) →
      LiveReachable next (if e = Event.disconnect then socket :: gone else gone)

/-- The `host` of the lobby is one of its members, or a socket that has
disconnected, or the name of an inherited function. -/
def HostOk (gone : List ConnId) (lobby : Lobby) : Prop :=
  (objGet lobby.users lobby.host).isSome ∨ lobby.host ∈ gone
    ∨ (inheritedName lobby.host).isSome

/-- The keys of an object are pairwise distinct. -/
def NodupKeys {β : Type} (o : List (String × β)) : Prop := (o.map Prod.fst).Nodup

/-- Socket `t` is in the banned array of the lobby and is not one of its members. -/
def BannedOut (t : ConnId) (lobby : Lobby) : Prop :=
  (∃ banned, lobby.banned = some banned ∧ t ∈ banned) ∧ objGet lobby.users t = none

/-! ## Runs and reachability -/

theorem reachable_of_run {s : Lobbies} (hs : Reachable s) :
    ∀ (es : List (ConnId × Event)) {t : Lobbies} {outs : List Emit},
      run s es = some (t, outs) → Reachable t := by
  intro es
  induction es generalizing s with
  | nil =>
    intro t outs h
    simp only [run, Option.some.injEq, Prod.mk.injEq] at h
    exact h.1 ▸ hs
  | cons p es ih =>
    intro t outs h
    obtain ⟨c, e⟩ := p
    simp only [run] at h
    cases hh : handle s c e with
    | none => simp [hh] at h
    | some r =>
      obtain ⟨s1, out⟩ := r
      rw [hh] at h
      cases hr : run s1 es with
      | none => simp [hr] at h
      | some r2 =>
        obtain ⟨t2, outs2⟩ := r2
        simp only [hr, Option.some.injEq, Prod.mk.injEq] at h
        exact h.1 ▸ ih (Reachable.step c e hs hh) hr

theorem reachable_of_run_fst {es : List (ConnId × Event)} {t : Lobbies}
    (h : (run [] es).map Prod.fst = some t) : Reachable t := by
  cases hr : run [] es with
  | none => simp [hr] at h
  | some r =>
    obtain ⟨t2, outs⟩ := r
    rw [hr] at h
    simp only [Option.map_some', Option.some.injEq] at h
    exact h ▸ reachable_of_run Reachable.init es hr

theorem twoMemberRegistry_run :
    (run [] [("a", Event.create_lobby "L" "Alice" true), ("b", Event.join_lobby "L" "Bob" true),
        ("a", Event.add_video "L" "https://youtu.be/abc12345678" true)]).map Prod.fst
      = some twoMemberRegistry := by
  decide

theorem twoMemberRegistry_reachable : Reachable twoMemberRegistry :=
  reachable_of_run_fst twoMemberRegistry_run

/-! ## Lemmas on objects -/

theorem objGet_mem {β : Type} {o : List (String × β)} {k : String} {v : β}
    (h : objGet o k = some v) : (k, v) ∈ o := by
  induction o with
  | nil => simp [objGet] at h
  | cons p o ih =>
    obtain ⟨k', v'⟩ := p
    simp only [objGet] at h
    split at h
    · next hk =>
      simp only [Option.some.injEq] at h
      subst hk; subst h
      exact List.mem_cons_self _ _
    · exact List.mem_cons_of_mem _ (ih h)

theorem mem_objSet {β : Type} {o : List (String × β)} {k : String} {v : β} {p : String × β}
    (h : p ∈ objSet o k v) : p ∈ o ∨ p = (k, v) := by
  induction o with
  | nil =>
    simp only [objSet, List.mem_singleton] at h
    exact Or.inr h
  | cons q o ih =>
    obtain ⟨k', v'⟩ := q
    simp only [objSet] at h
    split at h
    · rcases List.mem_cons.mp h with h | h
      · exact Or.inr h
      · exact Or.inl (List.mem_cons_of_mem _ h)
    · rcases List.mem_cons.mp h with h | h
      · exact Or.inl (h ▸ List.mem_cons_self _ _)
      · rcases ih h with h | h
        · exact Or.inl (List.mem_cons_of_mem _ h)
        · exact Or.inr h

theorem mem_objDelete {β : Type} {o : List (String × β)} {k : String} {p : String × β}
    (h : p ∈ objDelete o k) : p ∈ o ∧ p.1 ≠ k := by
  simpa [objDelete] using h

theorem disconnectLoop_shape (s : Lobbies) (c : ConnId) :
    ∀ (entries : List (LobbyId × Lobby)), (∀ q ∈ entries, q ∈ s) →
      RegistryAfter s c (disconnectLoop s c entries).1 := by
  intro entries
  induction entries with
  | nil => intro _; exact Or.inl rfl
  | cons q entries ih =>
    intro hsub
    obtain ⟨lobbyId, lobby⟩ := q
    have hq : (lobbyId, lobby) ∈ s := hsub _ (List.mem_cons_self _ _)
    simp only [disconnectLoop]
    split
    · exact ih (fun q hq => hsub q (List.mem_cons_of_mem _ hq))
    · next user hu =>
      split
      · next hhost =>
        split
        · next newHostId newHost others hrest =>
          exact Or.inr (Or.inl ⟨lobbyId, lobby, _, hq,
            LobbyStep.leavePromote lobby user newHostId newHost others hu hhost hrest, rfl⟩)
        · next hrest =>
          exact Or.inr (Or.inr ⟨lobbyId, lobby, user, hq, hu, hhost, hrest, rfl⟩)
      · next hhost =>
        exact Or.inr (Or.inl ⟨lobbyId, lobby, _, hq,
          LobbyStep.leave lobby user hu (by simpa using hhost), rfl⟩)

theorem join_lobby_action {s t : Lobbies} {c : ConnId} {lobbyId : LobbyId} {userName : String}
    {cb : Bool} {out : List Emit} (h : join_lobby s c lobbyId userName cb = some (t, out)) :
    ActionAfter s c t := by
  unfold join_lobby at h
  split at h
  · split at h
    · simp only [Option.some.injEq, Prod.mk.injEq] at h
      exact Or.inl h.1.symm
    · exact absurd h (by simp)
  · next lobby hl =>
    split at h
    · simp only [Option.some.injEq, Prod.mk.injEq] at h
      exact Or.inl h.1.symm
    · next hb =>
      simp only [Option.some.injEq, Prod.mk.injEq] at h
      exact Or.inr ⟨lobbyId, lobby, _, objGet_mem hl,
        ActionStep.join lobby userName (by simpa using hb), h.1.symm⟩

theorem add_video_action {s t : Lobbies} {c : ConnId} {lobbyId : LobbyId} {url : String}
    {cb : Bool} {out : List Emit} (h : add_video s c lobbyId url cb = some (t, out)) :
    ActionAfter s c t := by
  unfold add_video at h
  split at h
  · split at h
    · simp only [Option.some.injEq, Prod.mk.injEq] at h
      exact Or.inl h.1.symm
    · exact absurd h (by simp)
  · next lobby hl =>
    split at h
    · simp only [Option.some.injEq, Prod.mk.injEq] at h
      exact Or.inl h.1.symm
    · next user hu =>
      split at h
      · simp only [Option.some.injEq, Prod.mk.injEq] at h
        exact Or.inl h.1.symm
      · next hre =>
        split at h
        · simp only [Option.some.injEq, Prod.mk.injEq] at h
          exact Or.inl h.1.symm
        · next hdup =>
          simp only [Option.some.injEq, Prod.mk.injEq] at h
          exact Or.inr ⟨lobbyId, lobby, _, objGet_mem hl,
            ActionStep.add lobby user url hu (by simpa using hre) (by simpa using hdup), h.1.symm⟩

theorem skip_video_action {s t : Lobbies} {c : ConnId} {lobbyId : LobbyId}
    {cb : Bool} {out : List Emit} (h : skip_video s c lobbyId cb = some (t, out)) :
    ActionAfter s c t := by
  unfold skip_video at h
  split at h
  · simp only [Option.some.injEq, Prod.mk.injEq] at h
    exact Or.inl h.1.symm
  · next lobby hl =>
    split at h
    · simp only [Option.some.injEq, Prod.mk.injEq] at h
      exact Or.inl h.1.symm
    · next hh =>
      split at h
      · simp only [Option.some.injEq, Prod.mk.injEq] at h
        exact Or.inl h.1.symm
      · next video rest hq =>
        simp only [Option.some.injEq, Prod.mk.injEq] at h
        exact Or.inr ⟨lobbyId, lobby, _, objGet_mem hl,
          ActionStep.skip lobby video rest (by simpa using hh) hq, h.1.symm⟩

theorem kick_user_action {s t : Lobbies} {c : ConnId} {lobbyId : LobbyId} {target : ConnId}
    {cb : Bool} {out : List Emit} (h : kick_user s c lobbyId target cb = some (t, out)) :
    ActionAfter s c t := by
  unfold kick_user at h
  split at h
  · simp only [Option.some.injEq, Prod.mk.injEq] at h
    exact Or.inl h.1.symm
  · next lobby hl =>
    split at h
    · simp only [Option.some.injEq, Prod.mk.injEq] at h
      exact Or.inl h.1.symm
    · next hh =>
      split at h
      · next hu =>
        split at h
        · simp only [Option.some.injEq, Prod.mk.injEq] at h
          exact Or.inl h.1.symm
        · next name hin =>
          split at h
          · simp only [Option.some.injEq, Prod.mk.injEq] at h
            exact Or.inl h.1.symm
          · next hne =>
            simp only [Option.some.injEq, Prod.mk.injEq] at h
            exact Or.inr ⟨lobbyId, lobby, _, objGet_mem hl,
              ActionStep.kickInherited lobby target name (by simpa using hh) hu hin hne,
              h.1.symm⟩
      · next u hu =>
        split at h
        · simp only [Option.some.injEq, Prod.mk.injEq] at h
          exact Or.inl h.1.symm
        · next hne =>
          simp only [Option.some.injEq, Prod.mk.injEq] at h
          exact Or.inr ⟨lobbyId, lobby, _, objGet_mem hl,
            ActionStep.kick lobby target u (by simpa using hh) hu hne, h.1.symm⟩

theorem delete_video_action {s t : Lobbies} {c : ConnId} {lobbyId : LobbyId} {index : Int}
    {cb : Bool} {out : List Emit} (h : delete_video s c lobbyId index cb = some (t, out)) :
    ActionAfter s c t := by
  unfold delete_video at h
  split at h
  · simp only [Option.some.injEq, Prod.mk.injEq] at h
    exact Or.inl h.1.symm
  · next lobby hl =>
    split at h
    · simp only [Option.some.injEq, Prod.mk.injEq] at h
      exact Or.inl h.1.symm
    · next hh =>
      split at h
      · next hi =>
        simp only [Option.some.injEq, Prod.mk.injEq] at h
        exact Or.inr ⟨lobbyId, lobby, _, objGet_mem hl,
          ActionStep.delete lobby index (by simpa using hh) hi.1 hi.2, h.1.symm⟩
      · simp only [Option.some.injEq, Prod.mk.injEq] at h
        exact Or.inl h.1.symm

theorem reorderAndBroadcast_action {s t : Lobbies} {c : ConnId} {lobbyId : LobbyId}
    {lobby : Lobby} {head : Video} {rest : List Video}
    {cb : Bool} {out : List Emit}
    (h : reorderAndBroadcast s lobbyId { lobby with queue := head :: rest } cb = some (t, out))
    (hl : objGet s lobbyId = some lobby)
    (hstep : ActionStep c lobby (reordered lobby head rest)) : ActionAfter s c t := by
  simp only [reorderAndBroadcast, reorderQueue, Option.some.injEq, Prod.mk.injEq] at h
  exact Or.inr ⟨lobbyId, lobby, _, objGet_mem hl, hstep, h.1.symm⟩

theorem like_video_action {s t : Lobbies} {c : ConnId} {lobbyId : LobbyId} {undo : Bool}
    {cb : Bool} {out : List Emit} (h : like_video s c lobbyId undo cb = some (t, out)) :
    ActionAfter s c t := by
  unfold like_video at h
  split at h
  · split at h
    · simp only [Option.some.injEq, Prod.mk.injEq] at h
      exact Or.inl h.1.symm
    · exact absurd h (by simp)
  · next lobby hl =>
    split at h
    · simp only [Option.some.injEq, Prod.mk.injEq] at h
      exact Or.inl h.1.symm
    · next user hu =>
      split at h
      · simp only [Option.some.injEq, Prod.mk.injEq] at h
        exact Or.inl h.1.symm
      · next video rest hq =>
        split at h
        · split at h
          · next hv =>
            exact reorderAndBroadcast_action h hl
              (ActionStep.likeUndo lobby user video rest hu hq hv)
          · simp only [Option.some.injEq, Prod.mk.injEq] at h
            exact Or.inl h.1.symm
        · split at h
          · next hv =>
            exact reorderAndBroadcast_action h hl
              (ActionStep.like lobby user video rest hu hq hv)
          · simp only [Option.some.injEq, Prod.mk.injEq] at h
            exact Or.inl h.1.symm

theorem dislike_video_action {s t : Lobbies} {c : ConnId} {lobbyId : LobbyId} {undo : Bool}
    {cb : Bool} {out : List Emit} (h : dislike_video s c lobbyId undo cb = some (t, out)) :
    ActionAfter s c t := by
  unfold dislike_video at h
  split at h
  · split at h
    · simp only [Option.some.injEq, Prod.mk.injEq] at h
      exact Or.inl h.1.symm
    · exact absurd h (by simp)
  · next lobby hl =>
    split at h
    · simp only [Option.some.injEq, Prod.mk.injEq] at h
      exact Or.inl h.1.symm
    · next user hu =>
      split at h
      · simp only [Option.some.injEq, Prod.mk.injEq] at h
        exact Or.inl h.1.symm
      · next video rest hq =>
        split at h
        · split at h
          · next hv =>
            exact reorderAndBroadcast_action h hl
              (ActionStep.dislikeUndo lobby user video rest hu hq hv)
          · simp only [Option.some.injEq, Prod.mk.injEq] at h
            exact Or.inl h.1.symm
        · split at h
          · next hv =>
            exact reorderAndBroadcast_action h hl
              (ActionStep.dislike lobby user video rest hu hq hv)
          · simp only [Option.some.injEq, Prod.mk.injEq] at h
            exact Or.inl h.1.symm

theorem ban_user_action {s t : Lobbies} {c : ConnId} {lobbyId : LobbyId} {target : ConnId}
    {cb : Bool} {out : List Emit} (h : ban_user s c lobbyId target cb = some (t, out)) :
    ActionAfter s c t := by
  unfold ban_user at h
  split at h
  · simp only [Option.some.injEq, Prod.mk.injEq] at h
    exact Or.inl h.1.symm
  · next lobby hl =>
    split at h
    · simp only [Option.some.injEq, Prod.mk.injEq] at h
      exact Or.inl h.1.symm
    · next hh =>
      split at h
      · next hu =>
        split at h
        · simp only [Option.some.injEq, Prod.mk.injEq] at h
          exact Or.inl h.1.symm
        · next name hin =>
          split at h
          · simp only [Option.some.injEq, Prod.mk.injEq] at h
            exact Or.inl h.1.symm
          · next hne =>
            simp only [Option.some.injEq, Prod.mk.injEq] at h
            exact Or.inr ⟨lobbyId, lobby, _, objGet_mem hl,
              ActionStep.banInherited lobby target name (by simpa using hh) hu hin hne,
              h.1.symm⟩
      · next u hu =>
        split at h
        · simp only [Option.some.injEq, Prod.mk.injEq] at h
          exact Or.inl h.1.symm
        · next hne =>
          simp only [Option.some.injEq, Prod.mk.injEq] at h
          exact Or.inr ⟨lobbyId, lobby, _, objGet_mem hl,
            ActionStep.ban lobby target u (by simpa using hh) hu hne, h.1.symm⟩

theorem transfer_host_action {s t : Lobbies} {c : ConnId} {lobbyId : LobbyId} {target : ConnId}
    {cb : Bool} {out : List Emit} (h : transfer_host s c lobbyId target cb = some (t, out)) :
    ActionAfter s c t := by
  unfold transfer_host at h
  split at h
  · simp only [Option.some.injEq, Prod.mk.injEq] at h
    exact Or.inl h.1.symm
  · next lobby hl =>
    split at h
    · simp only [Option.some.injEq, Prod.mk.injEq] at h
      exact Or.inl h.1.symm
    · next hh =>
      split at h
      · next hu =>
        split at h
        · simp only [Option.some.injEq, Prod.mk.injEq] at h
          exact Or.inl h.1.symm
        · next name hin =>
          split at h
          · simp only [Option.some.injEq, Prod.mk.injEq] at h
            exact Or.inl h.1.symm
          · next hne =>
            split at h
            · exact absurd h (by simp)
            · next me hme =>
              simp only [Option.some.injEq, Prod.mk.injEq] at h
              exact Or.inr ⟨lobbyId, lobby, _, objGet_mem hl,
                ActionStep.transferInherited lobby target name me (by simpa using hh) hu hin
                  hne hme, h.1.symm⟩
      · next u hu =>
        split at h
        · simp only [Option.some.injEq, Prod.mk.injEq] at h
          exact Or.inl h.1.symm
        · next hne =>
          split at h
          · exact absurd h (by simp)
          · next me hme =>
            dsimp only at h
            split at h
            · exact absurd h (by simp)
            · next newHost hnew =>
              simp only [Option.some.injEq, Prod.mk.injEq] at h
              exact Or.inr ⟨lobbyId, lobby, _, objGet_mem hl,
                ActionStep.transfer lobby target u me newHost (by simpa using hh) hu hne
                  hme hnew, h.1.symm⟩

theorem ActionStep.lobbyStep {c : ConnId} {lobby next : Lobby}
    (h : ActionStep c lobby next) : LobbyStep c lobby next := by
  cases h with
  | join userName hb => exact LobbyStep.join _ userName hb
  | add user url hu hre hdup => exact LobbyStep.add _ user url hu hre hdup
  | skip video rest hh hq => exact LobbyStep.skip _ video rest hh hq
  | kick target u hh ht hne => exact LobbyStep.kick _ target u hh ht hne
  | delete index hh h0 h1 => exact LobbyStep.delete _ index hh h0 h1
  | likeUndo user video rest hu hq hv => exact LobbyStep.likeUndo _ user video rest hu hq hv
  | like user video rest hu hq hv => exact LobbyStep.like _ user video rest hu hq hv
  | dislikeUndo user video rest hu hq hv =>
    exact LobbyStep.dislikeUndo _ user video rest hu hq hv
  | dislike user video rest hu hq hv => exact LobbyStep.dislike _ user video rest hu hq hv
  | ban target u hh ht hne => exact LobbyStep.ban _ target u hh ht hne
  | transfer target u me newHost hh ht hne hme hnew =>
    exact LobbyStep.transfer _ target u me newHost hh ht hne hme hnew
  | kickInherited target name hh ht hin hne =>
    exact LobbyStep.kickInherited _ target name hh ht hin hne
  | banInherited target name hh ht hin hne =>
    exact LobbyStep.banInherited _ target name hh ht hin hne
  | transferInherited target name me hh ht hin hne hme =>
    exact LobbyStep.transferInherited _ target name me hh ht hin hne hme

theorem ActionAfter.registryAfter {s t : Lobbies} {c : ConnId} (h : ActionAfter s c t) :
    RegistryAfter s c t := by
  rcases h with h | ⟨lobbyId, lobby, next, hl, hstep, ht⟩
  · exact Or.inl h
  · exact Or.inr (Or.inl ⟨lobbyId, lobby, next, hl, hstep.lobbyStep, ht⟩)

/-- The registry after an event that is neither `create_lobby` nor `disconnect`. -/
theorem handle_action {s t : Lobbies} {c : ConnId} {e : Event} {out : List Emit}
    (h : handle s c e = some (t, out)) (hd : e ≠ Event.disconnect)
    (hc : ∀ uuid hostName cb, e ≠ Event.create_lobby uuid hostName cb) :
    ActionAfter s c t := by
  cases e with
  | create_lobby uuid hostName cb => exact absurd rfl (hc uuid hostName cb)
  | join_lobby lobbyId userName cb => exact join_lobby_action h
  | send_message lobbyId message now cb =>
    refine Or.inl ?_
    simp only [handle, send_message] at h
    split at h
    · split at h
      · simp only [Option.some.injEq, Prod.mk.injEq] at h
        exact h.1.symm
      · exact absurd h (by simp)
    · split at h <;>
      · simp only [Option.some.injEq, Prod.mk.injEq] at h
        exact h.1.symm
  | add_video lobbyId url cb => exact add_video_action h
  | skip_video lobbyId cb => exact skip_video_action h
  | kick_user lobbyId userSocketId cb => exact kick_user_action h
  | delete_video lobbyId index cb => exact delete_video_action h
  | like_video lobbyId undo cb => exact like_video_action h
  | dislike_video lobbyId undo cb => exact dislike_video_action h
  | ban_user lobbyId userSocketId cb => exact ban_user_action h
  | transfer_host lobbyId newHostSocketId cb => exact transfer_host_action h
  | request_sync lobbyId =>
    refine Or.inl ?_
    simp only [handle, request_sync] at h
    split at h
    · simp only [Option.some.injEq, Prod.mk.injEq] at h
      exact h.1.symm
    · split at h <;>
      · simp only [Option.some.injEq, Prod.mk.injEq] at h
        exact h.1.symm
  | host_sync lobbyId requester time state =>
    simp only [handle, host_sync, Option.some.injEq, Prod.mk.injEq] at h
    exact Or.inl h.1.symm
  | disconnect => exact absurd rfl hd
  | sync_play lobbyId time =>
    simp only [handle, Option.some.injEq, Prod.mk.injEq] at h
    exact Or.inl h.1.symm
  | sync_pause lobbyId time =>
    simp only [handle, Option.some.injEq, Prod.mk.injEq] at h
    exact Or.inl h.1.symm
  | sync_end lobbyId =>
    simp only [handle, Option.some.injEq, Prod.mk.injEq] at h
    exact Or.inl h.1.symm

/-- The registry after an event: the shape left by a handler, or the registry
with the lobby just created stored under the drawn identifier. -/
theorem handle_shape {s t : Lobbies} {c : ConnId} {e : Event} {out : List Emit}
    (h : handle s c e = some (t, out)) :
    RegistryAfter s c t
      ∨ ∃ uuid hostName cb, e = Event.create_lobby uuid hostName cb
          ∧ t = objSet s uuid (freshLobby c hostName) := by
  by_cases hd : e = Event.disconnect
  · subst hd
    simp only [handle, disconnect, Option.some.injEq] at h
    have ht : t = (disconnectLoop s c s).1 := by rw [h]
    exact Or.inl (ht ▸ disconnectLoop_shape s c s (fun _ hq => hq))
  · by_cases hc : ∃ uuid hostName cb, e = Event.create_lobby uuid hostName cb
    · obtain ⟨uuid, hostName, cb, rfl⟩ := hc
      simp only [handle, create_lobby, Option.some.injEq, Prod.mk.injEq] at h
      exact Or.inr ⟨uuid, hostName, cb, rfl, h.1.symm⟩
    · exact Or.inl (handle_action h hd
        (fun uuid hostName cb he => hc ⟨uuid, hostName, cb, he⟩)).registryAfter

theorem RegistryAfter.entry {s t : Lobbies} {c : ConnId} (h : RegistryAfter s c t)
    {p : LobbyId × Lobby} (hp : p ∈ t) : EntryAfter s c p := by
  rcases h with rfl | ⟨lobbyId, lobby, next, hl, hstep, rfl⟩ | ⟨lobbyId, _, _, _, _, _, _, rfl⟩
  · exact Or.inl hp
  · rcases mem_objSet hp with h | h
    · exact Or.inl h
    · subst h
      exact Or.inr ⟨lobby, hl, hstep⟩
  · exact Or.inl (mem_objDelete hp).1

/-- Every entry of the registry after an event is an entry from before, the
lobby just created, or a step of the entry with the same identifier. -/
theorem handle_entry {s t : Lobbies} {c : ConnId} {e : Event} {out : List Emit}
    (h : handle s c e = some (t, out)) {p : LobbyId × Lobby} (hp : p ∈ t) :
    EntryAfter s c p
      ∨ ∃ uuid hostName cb, e = Event.create_lobby uuid hostName cb
          ∧ p = (uuid, freshLobby c hostName) := by
  rcases handle_shape h with h | ⟨uuid, hostName, cb, he, rfl⟩
  · exact Or.inl (h.entry hp)
  · rcases mem_objSet hp with h1 | h1
    · exact Or.inl (Or.inl h1)
    · exact Or.inr ⟨uuid, hostName, cb, he, h1⟩

/-! ## The host flag -/

/-- C1 (fails on the code): socket `a` creates lobby `L` and then sends
`join_lobby` for `L`; the join overwrites its member record with `isHost: false`,
so the reachable registry holds a lobby with one member and no member whose
`isHost` flag is set. -/
theorem rejoin_by_host_leaves_no_host :
    (run [] [("a", Event.create_lobby "L" "Alice" true),
        ("a", Event.join_lobby "L" "Alice" true)]).map Prod.fst
      = some [("L", { host := "a", hostName := "Alice", users := [("a", ⟨"Alice", false⟩)],
                      queue := [], currentVideo := none, banned := none })]
    ∧ ∃ s, Reachable s ∧ ∃ lobbyId lobby, (lobbyId, lobby) ∈ s ∧ lobby.users ≠ []
        ∧ hostCount lobby = 0 := by
  have h : (run [] [("a", Event.create_lobby "L" "Alice" true),
        ("a", Event.join_lobby "L" "Alice" true)]).map Prod.fst
      = some [("L", { host := "a", hostName := "Alice", users := [("a", ⟨"Alice", false⟩)],
                      queue := [], currentVideo := none, banned := none })] := by decide
  exact ⟨h, _, reachable_of_run_fst h, "L", _, List.mem_singleton.mpr rfl, by decide, by decide⟩

/-! ## Authority -/

/-- C2: when lobby `lobbyId` is registered and its `host` is not the sending
socket `c`, handling `skip_video`, `delete_video`, `kick_user`, `ban_user` or
`transfer_host` from `c` for that lobby returns the registry unchanged. -/
theorem privileged_by_non_host_keeps_registry (s : Lobbies) (c : ConnId) (lobbyId : LobbyId)
    (lobby : Lobby) (hl : objGet s lobbyId = some lobby) (hc : lobby.host ≠ c)
    (e : Event) (he : privileged lobbyId e = true) :
    (handle s c e).map Prod.fst = some s := by
  cases e <;> simp only [privileged, decide_eq_true_eq] at he <;>
    first
    | exact absurd he (by simp)
    | (subst he
       simp [handle, skip_video, delete_video, kick_user, ban_user, transfer_host, hl, hc])

theorem privileged_by_non_host_keeps_registry_witness :
    (handle twoMemberRegistry "b" (Event.kick_user "L" "a" true)).map Prod.fst
      = some twoMemberRegistry :=
  privileged_by_non_host_keeps_registry twoMemberRegistry "b" "L" twoMemberLobby
    (by decide) (by decide)
    (Event.kick_user "L" "a" true) (by decide)

/-- C3 (fails on the code for `delete_video`): in the reachable registry with
host `a` and member `b`, `delete_video` sent by `b` with an acknowledgement
callback emits nothing at all, while `skip_video` sent by `b` answers through
the callback with its host-only error. -/
theorem delete_video_by_non_host_is_silent :
    Reachable twoMemberRegistry
    ∧ handle twoMemberRegistry "b" (Event.delete_video "L" 0 true) = some (twoMemberRegistry, [])
    ∧ handle twoMemberRegistry "b" (Event.skip_video "L" true)
        = some (twoMemberRegistry,
            [⟨Dest.callback, Msg.error "Only the host can skip videos"⟩]) :=
  ⟨twoMemberRegistry_reachable, by decide, by decide⟩

/-! ## Playback synchronisation -/

/-- C7 (fails on the code): `sync_play`, `sync_pause` and `sync_end` sent by the
host `a` of the reachable two-member lobby `L` emit no message: the server has
no listener for them. -/
theorem sync_events_emit_nothing :
    Reachable twoMemberRegistry
    ∧ handle twoMemberRegistry "a" (Event.sync_play "L" 42) = some (twoMemberRegistry, [])
    ∧ handle twoMemberRegistry "a" (Event.sync_pause "L" 42) = some (twoMemberRegistry, [])
    ∧ handle twoMemberRegistry "a" (Event.sync_end "L") = some (twoMemberRegistry, []) :=
  ⟨twoMemberRegistry_reachable, by decide, by decide, by decide⟩

/-! ## Lobby lifecycle -/

/-- C6 (fails on the code): socket `a` creates lobby `L`, sends `join_lobby` for
`L` and disconnects; its record no longer carries `isHost`, so the disconnect
handler neither promotes nor deletes, and the reachable registry keeps `L` with
no member. -/
theorem rejoin_then_disconnect_leaves_empty_lobby :
    (run [] [("a", Event.create_lobby "L" "Alice" true),
        ("a", Event.join_lobby "L" "Alice" true), ("a", Event.disconnect)]).map Prod.fst
      = some [("L", { host := "a", hostName := "Alice", users := [],
                      queue := [], currentVideo := none, banned := none })] := by
  decide


/-! ## Lemmas on the sort -/

theorem sortInsert_perm {α : Type} (cmp : α → α → Int) (a : α) (l : List α) :
    (sortInsert cmp a l).Perm (a :: l) := by
  induction l with
  | nil => exact List.Perm.refl _
  | cons b l ih =>
    simp only [sortInsert]
    split
    · exact List.Perm.refl _
    · exact (List.Perm.cons b ih).trans (List.Perm.swap a b l)

theorem arraySort_perm {α : Type} (cmp : α → α → Int) (l : List α) :
    (arraySort cmp l).Perm l := by
  induction l with
  | nil => exact List.Perm.refl _
  | cons a l ih =>
    simp only [arraySort]
    exact (sortInsert_perm cmp a _).trans (List.Perm.cons a ih)

theorem mem_arraySort {α : Type} {cmp : α → α → Int} {l : List α} {x : α} :
    x ∈ arraySort cmp l ↔ x ∈ l :=
  (arraySort_perm cmp l).mem_iff

/-! ## Votes -/

theorem videoWF_newVideo (url addedBy : String) : VideoWF (newVideo url addedBy) := by
  simp [VideoWF, VotesConsistent, newVideo]

theorem videoWF_played {v : Video} (h : VideoWF v) : VideoWF { v with played := true } := h

theorem videoWF_likeUndone {c : ConnId} {v : Video} (h : VideoWF v) (hc : c ∈ v.likedBy) :
    VideoWF (likeUndone c v) := by
  obtain ⟨⟨h1, h2, h3⟩, h4, h5⟩ := h
  refine ⟨⟨?_, h2, ?_⟩, h4.erase c, h5⟩
  · have hpos := List.length_pos_of_mem hc
    simp only [likeUndone, List.length_erase_of_mem hc, h1]
    omega
  · intro id hid
    exact h3 id (List.mem_of_mem_erase hid)

theorem videoWF_dislikeUndone {c : ConnId} {v : Video} (h : VideoWF v)
    (hc : c ∈ v.dislikedBy) : VideoWF (dislikeUndone c v) := by
  obtain ⟨⟨h1, h2, h3⟩, h4, h5⟩ := h
  refine ⟨⟨h1, ?_, ?_⟩, h4, h5.erase c⟩
  · have hpos := List.length_pos_of_mem hc
    simp only [dislikeUndone, List.length_erase_of_mem hc, h2]
    omega
  · intro id hid hid2
    exact h3 id hid (List.mem_of_mem_erase hid2)

theorem videoWF_liked {c : ConnId} {v : Video} (h : VideoWF v) (hc : c ∉ v.likedBy) :
    VideoWF (liked c v) := by
  obtain ⟨⟨h1, h2, h3⟩, h4, h5⟩ := h
  have hnd : (v.likedBy ++ [c]).Nodup := by
    rw [List.nodup_append]
    refine ⟨h4, List.nodup_singleton c, ?_⟩
    intro a ha hb
    rw [List.mem_singleton] at hb
    exact hc (hb ▸ ha)
  unfold liked
  dsimp only
  split
  · next hd =>
    refine ⟨⟨?_, ?_, ?_⟩, hnd, h5.erase c⟩
    · simp [h1]
    · have hpos := List.length_pos_of_mem hd
      simp only [List.length_erase_of_mem hd, h2]
      omega
    · intro id hid hid2
      rcases List.mem_append.mp hid with hm | hm
      · exact h3 id hm (List.mem_of_mem_erase hid2)
      · rw [List.mem_singleton] at hm
        subst hm
        exact (List.Nodup.not_mem_erase h5) hid2
  · next hd =>
    refine ⟨⟨?_, h2, ?_⟩, hnd, h5⟩
    · simp [h1]
    · intro id hid hid2
      rcases List.mem_append.mp hid with hm | hm
      · exact h3 id hm hid2
      · rw [List.mem_singleton] at hm
        subst hm
        exact hd hid2

theorem videoWF_disliked {c : ConnId} {v : Video} (h : VideoWF v) (hc : c ∉ v.dislikedBy) :
    VideoWF (disliked c v) := by
  obtain ⟨⟨h1, h2, h3⟩, h4, h5⟩ := h
  have hnd : (v.dislikedBy ++ [c]).Nodup := by
    rw [List.nodup_append]
    refine ⟨h5, List.nodup_singleton c, ?_⟩
    intro a ha hb
    rw [List.mem_singleton] at hb
    exact hc (hb ▸ ha)
  unfold disliked
  dsimp only
  split
  · next hd =>
    refine ⟨⟨?_, ?_, ?_⟩, h4.erase c, hnd⟩
    · have hpos := List.length_pos_of_mem hd
      simp only [List.length_erase_of_mem hd, h1]
      omega
    · simp [h2]
    · intro id hid hid2
      rcases List.mem_append.mp hid2 with hm | hm
      · exact h3 id (List.mem_of_mem_erase hid) hm
      · rw [List.mem_singleton] at hm
        subst hm
        exact (List.Nodup.not_mem_erase h4) hid
  · next hd =>
    refine ⟨⟨h1, ?_, ?_⟩, h4, hnd⟩
    · simp [h2]
    · intro id hid hid2
      rcases List.mem_append.mp hid2 with hm | hm
      · exact h3 id hid hm
      · rw [List.mem_singleton] at hm
        subst hm
        exact hd hid

theorem queueWF_reordered {lobby : Lobby} {video head : Video} {rest : List Video}
    (h : QueueWF lobby) (hq : lobby.queue = video :: rest) (hh : VideoWF head) :
    QueueWF (reordered lobby head rest) := by
  intro v hv
  simp only [reordered, List.mem_cons, mem_arraySort] at hv
  rcases hv with hv | hv
  · exact hv ▸ hh
  · exact h v (by rw [hq]; exact List.mem_cons_of_mem _ hv)

/-- One step of a lobby keeps the votes of every queue entry well-formed. -/
theorem LobbyStep.queueWF {c : ConnId} {lobby next : Lobby} (hstep : LobbyStep c lobby next)
    (h : QueueWF lobby) : QueueWF next := by
  cases hstep with
  | join userName hb => exact h
  | add user url hu hre hdup =>
    intro v hv
    rcases List.mem_append.mp hv with hv | hv
    · exact h v hv
    · rw [List.mem_singleton] at hv
      exact hv ▸ videoWF_newVideo url user.name
  | skip video rest hh hq =>
    intro v hv
    rcases List.mem_append.mp hv with hv | hv
    · exact h v (by rw [hq]; exact List.mem_cons_of_mem _ hv)
    · rw [List.mem_singleton] at hv
      exact hv ▸ videoWF_played (h video (by rw [hq]; exact List.mem_cons_self _ _))
  | kick target u hh ht hne => exact h
  | delete index hh h0 h1 =>
    intro v hv
    exact h v ((List.eraseIdx_sublist _ _).subset hv)
  | likeUndo user video rest hu hq hv =>
    exact queueWF_reordered h hq
      (videoWF_likeUndone (h video (by rw [hq]; exact List.mem_cons_self _ _)) hv)
  | like user video rest hu hq hv =>
    exact queueWF_reordered h hq
      (videoWF_liked (h video (by rw [hq]; exact List.mem_cons_self _ _)) hv)
  | dislikeUndo user video rest hu hq hv =>
    exact queueWF_reordered h hq
      (videoWF_dislikeUndone (h video (by rw [hq]; exact List.mem_cons_self _ _)) hv)
  | dislike user video rest hu hq hv =>
    exact queueWF_reordered h hq
      (videoWF_disliked (h video (by rw [hq]; exact List.mem_cons_self _ _)) hv)
  | ban target u hh ht hne => exact h
  | transfer target u me newHost hh ht hne hme hnew => exact h
  | kickInherited target name hh ht hin hne => exact h
  | banInherited target name hh ht hin hne => exact h
  | transferInherited target name me hh ht hin hne hme => exact h
  | leave user hu hf => exact h
  | leavePromote user newHostId newHost others hu hf hrest => exact h

theorem reachable_queueWF {s : Lobbies} (hs : Reachable s) :
    ∀ p ∈ s, QueueWF p.2 := by
  induction hs with
  | init => intro p hp; simp at hp
  | step c e _ hh ih =>
    intro p hp
    rcases handle_entry hh hp with (h | ⟨lobby, hl, hstep⟩) | ⟨uuid, hostName, cb, _, rfl⟩
    · exact ih p h
    · exact hstep.queueWF (ih _ hl)
    · intro v hv
      simp [freshLobby] at hv

/-- C4: in every reachable registry, the entry at position 0 of every non-empty
queue has `likes` equal to the number of ids in `likedBy`, `dislikes` equal to
the number of ids in `dislikedBy`, and no id in both arrays. -/
theorem head_votes_consistent (s : Lobbies) (hs : Reachable s) (lobbyId : LobbyId)
    (lobby : Lobby) (hl : (lobbyId, lobby) ∈ s) (head : Video) (rest : List Video)
    (hq : lobby.queue = head :: rest) :
    head.likes = head.likedBy.length ∧ head.dislikes = head.dislikedBy.length
      ∧ ∀ id, id ∈ head.likedBy → id ∉ head.dislikedBy :=
  (reachable_queueWF hs _ hl head (by rw [hq]; exact List.mem_cons_self _ _)).1

theorem votedRegistry_reachable : Reachable [("L", votedLobby)] := by
  have h : (run [] [("a", Event.create_lobby "L" "Alice" true),
      ("b", Event.join_lobby "L" "Bob" true),
      ("a", Event.add_video "L" "https://youtu.be/abc12345678" true),
      ("b", Event.like_video "L" false true),
      ("a", Event.dislike_video "L" false true)]).map Prod.fst = some [("L", votedLobby)] := by
    decide
  exact reachable_of_run_fst h

theorem head_votes_consistent_witness :
    votedVideo.likes = votedVideo.likedBy.length
      ∧ votedVideo.dislikes = votedVideo.dislikedBy.length
      ∧ ∀ id, id ∈ votedVideo.likedBy → id ∉ votedVideo.dislikedBy :=
  head_votes_consistent [("L", votedLobby)] votedRegistry_reachable "L" votedLobby
    (List.mem_singleton.mpr rfl) votedVideo [] rfl

/-! ## Keys of the registry -/

theorem objGet_objSet {β : Type} (o : List (String × β)) (k k' : String) (v : β) :
    objGet (objSet o k v) k' = if k = k' then some v else objGet o k' := by
  induction o with
  | nil => simp [objSet, objGet]
  | cons p o ih =>
    obtain ⟨k0, v0⟩ := p
    simp only [objSet]
    split
    · next h0 =>
      subst h0
      simp only [objGet]
      split <;> rfl
    · next h0 =>
      simp only [objGet, ih]
      by_cases h1 : k0 = k'
      · subst h1
        have h2 : ¬ k = k0 := fun h => h0 h.symm
        simp [h2]
      · simp [h1]

theorem objGet_objDelete {β : Type} (o : List (String × β)) (k k' : String) :
    objGet (objDelete o k) k' = if k = k' then none else objGet o k' := by
  induction o with
  | nil => simp [objDelete, objGet]
  | cons p o ih =>
    obtain ⟨k0, v0⟩ := p
    simp only [objDelete] at ih
    simp only [objDelete, List.filter]
    by_cases h0 : k0 = k
    · subst h0
      simp only [ne_eq, not_true_eq_false, decide_False, ih, objGet]
      split <;> simp_all
    · simp only [ne_eq, h0, not_false_eq_true, decide_True, objGet, ih]
      by_cases h1 : k0 = k'
      · subst h1
        have h2 : ¬ k = k0 := fun h => h0 h.symm
        simp [h2]
      · simp [h1]

theorem objGet_eq_none_of_not_mem_keys {β : Type} {o : List (String × β)} {k : String}
    (h : k ∉ o.map Prod.fst) : objGet o k = none := by
  cases hg : objGet o k with
  | none => rfl
  | some v => exact absurd (List.mem_map_of_mem Prod.fst (objGet_mem hg)) h

theorem objGet_of_mem {β : Type} {o : List (String × β)} (hn : NodupKeys o) {k : String}
    {v : β} (h : (k, v) ∈ o) : objGet o k = some v := by
  induction o with
  | nil => simp at h
  | cons p o ih =>
    obtain ⟨k0, v0⟩ := p
    simp only [NodupKeys, List.map_cons, List.nodup_cons] at hn
    simp only [objGet]
    rcases List.mem_cons.mp h with h | h
    · simp only [Prod.mk.injEq] at h
      simp [h.1, h.2]
    · have hk : k0 ≠ k := by
        intro hk
        exact hn.1 (hk ▸ List.mem_map_of_mem Prod.fst h)
      simp only [hk, if_false]
      exact ih hn.2 h

theorem keys_objSet {β : Type} (o : List (String × β)) (k : String) (v : β) :
    (objSet o k v).map Prod.fst
      = if k ∈ o.map Prod.fst then o.map Prod.fst else o.map Prod.fst ++ [k] := by
  induction o with
  | nil => simp [objSet]
  | cons p o ih =>
    obtain ⟨k0, v0⟩ := p
    simp only [objSet]
    split
    · next h0 => subst h0; simp
    · next h0 =>
      simp only [List.map_cons, ih, List.mem_cons]
      have h1 : ¬ k = k0 := fun h => h0 h.symm
      simp only [h1, false_or]
      split <;> simp

theorem nodupKeys_objSet {β : Type} {o : List (String × β)} (hn : NodupKeys o) (k : String)
    (v : β) : NodupKeys (objSet o k v) := by
  unfold NodupKeys at *
  rw [keys_objSet]
  split
  · exact hn
  · next hk =>
    rw [List.nodup_append]
    refine ⟨hn, List.nodup_singleton k, ?_⟩
    intro a ha hb
    rw [List.mem_singleton] at hb
    exact hk (hb ▸ ha)

theorem nodupKeys_objDelete {β : Type} {o : List (String × β)} (hn : NodupKeys o)
    (k : String) : NodupKeys (objDelete o k) := by
  unfold NodupKeys at *
  exact hn.sublist ((List.filter_sublist o).map Prod.fst)

theorem reachable_nodupKeys {s : Lobbies} (hs : Reachable s) : NodupKeys s := by
  induction hs with
  | init => exact List.nodup_nil
  | step c e _ hh ih =>
    rcases handle_shape hh with (rfl | ⟨_, _, _, _, _, rfl⟩ | ⟨_, _, _, _, _, _, _, rfl⟩)
        | ⟨_, _, _, _, rfl⟩
    · exact ih
    · exact nodupKeys_objSet ih _ _
    · exact nodupKeys_objDelete ih _
    · exact nodupKeys_objSet ih _ _

/-! ## Bans -/

/-- One step of a lobby keeps a banned socket banned and out of the members. -/
theorem LobbyStep.bannedOut {c t : ConnId} {lobby next : Lobby}
    (hstep : LobbyStep c lobby next) (h : BannedOut t lobby) : BannedOut t next := by
  obtain ⟨⟨banned, hb, ht⟩, hu⟩ := h
  cases hstep with
  | join userName hban =>
    refine ⟨⟨banned, hb, ht⟩, ?_⟩
    have hne : c ≠ t := by
      intro hct
      subst hct
      simp [isBanned, hb, ht] at hban
    simp only [objGet_objSet, hne, if_false, hu]
  | add user url hu2 hre hdup => exact ⟨⟨banned, hb, ht⟩, hu⟩
  | skip video rest hh hq => exact ⟨⟨banned, hb, ht⟩, hu⟩
  | kick target u hh htg hne =>
    refine ⟨⟨banned, hb, ht⟩, ?_⟩
    simp only [objGet_objDelete, hu]
    split <;> rfl
  | delete index hh h0 h1 => exact ⟨⟨banned, hb, ht⟩, hu⟩
  | likeUndo user video rest hu2 hq hv => exact ⟨⟨banned, hb, ht⟩, hu⟩
  | like user video rest hu2 hq hv => exact ⟨⟨banned, hb, ht⟩, hu⟩
  | dislikeUndo user video rest hu2 hq hv => exact ⟨⟨banned, hb, ht⟩, hu⟩
  | dislike user video rest hu2 hq hv => exact ⟨⟨banned, hb, ht⟩, hu⟩
  | ban target u hh htg hne =>
    refine ⟨⟨banned ++ [target], by simp [hb], List.mem_append_left _ ht⟩, ?_⟩
    simp only [objGet_objDelete, hu]
    split <;> rfl
  | transfer target u me newHost hh htg hne hme hnew =>
    refine ⟨⟨banned, hb, ht⟩, ?_⟩
    have h1 : c ≠ t := by
      intro hct
      subst hct
      rw [hu] at hme
      exact absurd hme (by simp)
    have h2 : target ≠ t := by
      intro hct
      subst hct
      rw [hu] at htg
      exact absurd htg (by simp)
    simp only [objGet_objSet, h1, h2, if_false, hu]
  | kickInherited target name hh htg hin hne =>
    refine ⟨⟨banned, hb, ht⟩, ?_⟩
    simp only [objGet_objDelete, hu]
    split <;> rfl
  | banInherited target name hh htg hin hne =>
    refine ⟨⟨banned ++ [target], by simp [hb], List.mem_append_left _ ht⟩, ?_⟩
    simp only [objGet_objDelete, hu]
    split <;> rfl
  | transferInherited target name me hh htg hin hne hme =>
    refine ⟨⟨banned, hb, ht⟩, ?_⟩
    have h1 : c ≠ t := by
      intro hct
      subst hct
      rw [hu] at hme
      exact absurd hme (by simp)
    simp only [objGet_objSet, h1, if_false, hu]
  | leave user hu2 hf =>
    refine ⟨⟨banned, hb, ht⟩, ?_⟩
    simp only [objGet_objDelete, hu]
    split <;> rfl
  | leavePromote user newHostId newHost others hu2 hf hrest =>
    refine ⟨⟨banned, hb, ht⟩, ?_⟩
    have h0 : objGet (objDelete lobby.users c) t = none := by
      simp only [objGet_objDelete, hu]
      split <;> rfl
    have h2 : newHostId ≠ t := by
      intro hct
      subst hct
      rw [hrest] at h0
      simp [objGet] at h0
    simp only [objGet_objSet, h2, if_false, h0]

theorem handle_bannedOut {s t : Lobbies} {c : ConnId} {e : Event} {out : List Emit}
    {L : LobbyId} {b : ConnId} (h : handle s c e = some (t, out))
    (hfresh : ∀ uuid hostName cb, e = Event.create_lobby uuid hostName cb → uuid ≠ L)
    (hs : ∀ lobby, (L, lobby) ∈ s → BannedOut b lobby) :
    ∀ lobby, (L, lobby) ∈ t → BannedOut b lobby := by
  intro lobby hl
  rcases handle_entry h hl with (h1 | ⟨prev, hprev, hstep⟩) | ⟨uuid, hostName, cb, he, hp⟩
  · exact hs lobby h1
  · exact hstep.bannedOut (hs prev hprev)
  · simp only [Prod.mk.injEq] at hp
    exact absurd hp.1.symm (hfresh uuid hostName cb he)

theorem run_bannedOut {L : LobbyId} {b : ConnId} :
    ∀ (es : List (ConnId × Event)) {s t : Lobbies} {outs : List Emit},
      run s es = some (t, outs) →
      (∀ c uuid hostName cb, (c, Event.create_lobby uuid hostName cb) ∈ es → uuid ≠ L) →
      (∀ lobby, (L, lobby) ∈ s → BannedOut b lobby) →
      ∀ lobby, (L, lobby) ∈ t → BannedOut b lobby := by
  intro es
  induction es with
  | nil =>
    intro s t outs h _ hs
    simp only [run, Option.some.injEq, Prod.mk.injEq] at h
    exact h.1 ▸ hs
  | cons p es ih =>
    intro s t outs h hfresh hs
    obtain ⟨c, e⟩ := p
    simp only [run] at h
    cases hh : handle s c e with
    | none => simp [hh] at h
    | some r =>
      obtain ⟨s1, out⟩ := r
      rw [hh] at h
      cases hr : run s1 es with
      | none => simp [hr] at h
      | some r2 =>
        obtain ⟨t2, outs2⟩ := r2
        simp only [hr, Option.some.injEq, Prod.mk.injEq] at h
        rw [← h.1]
        refine ih hr (fun c2 uuid hostName cb hm => hfresh c2 uuid hostName cb
          (List.mem_cons_of_mem _ hm)) ?_
        exact handle_bannedOut hh
          (fun uuid hostName cb he => hfresh c uuid hostName cb (he ▸ List.mem_cons_self _ _)) hs

/-- A `ban_user` that emitted the `banned` notice stored the lobby with the
target in its banned array and out of its members. -/
theorem ban_user_success {s s1 : Lobbies} {h t : ConnId} {L : LobbyId} {cb : Bool}
    {out : List Emit} (hban : ban_user s h L t cb = some (s1, out))
    (hok : (⟨Dest.to t, Msg.banned L⟩ : Emit) ∈ out) :
    ∃ lobby, BannedOut t lobby ∧ s1 = objSet s L lobby := by
  unfold ban_user at hban
  split at hban
  · simp only [Option.some.injEq, Prod.mk.injEq] at hban
    rw [← hban.2] at hok
    simp [callback] at hok
  · next lobby hl =>
    split at hban
    · simp only [Option.some.injEq, Prod.mk.injEq] at hban
      rw [← hban.2] at hok
      simp [callback] at hok
    · split at hban
      · split at hban
        · simp only [Option.some.injEq, Prod.mk.injEq] at hban
          rw [← hban.2] at hok
          simp [callback] at hok
        · split at hban
          · simp only [Option.some.injEq, Prod.mk.injEq] at hban
            rw [← hban.2] at hok
            simp [callback] at hok
          · simp only [Option.some.injEq, Prod.mk.injEq] at hban
            refine ⟨_, ⟨⟨_, rfl, ?_⟩, ?_⟩, hban.1.symm⟩
            · simp
            · simp [objGet_objDelete]
      · split at hban
        · simp only [Option.some.injEq, Prod.mk.injEq] at hban
          rw [← hban.2] at hok
          simp [callback] at hok
        · simp only [Option.some.injEq, Prod.mk.injEq] at hban
          refine ⟨_, ⟨⟨_, rfl, ?_⟩, ?_⟩, hban.1.symm⟩
          · simp
          · simp [objGet_objDelete]

/-- C5: after a `ban_user` of the host that banned socket `t` from lobby `L`
(the `banned` notice went out), and after any further events among which no
`create_lobby` draws the identifier `L` again, whenever `L` is still registered
`t` is in its banned array and not among its members, and `join_lobby` sent by
`t` for `L` answers with the ban error and leaves the registry unchanged. -/
theorem ban_persists (s : Lobbies) (hs : Reachable s) (h t : ConnId) (L : LobbyId) (cb : Bool)
    (s1 : Lobbies) (out : List Emit)
    (hban : handle s h (Event.ban_user L t cb) = some (s1, out))
    (hok : (⟨Dest.to t, Msg.banned L⟩ : Emit) ∈ out)
    (es : List (ConnId × Event))
    (hfresh : ∀ c uuid hostName cb2, (c, Event.create_lobby uuid hostName cb2) ∈ es → uuid ≠ L)
    (s2 : Lobbies) (outs : List Emit) (hrun : run s1 es = some (s2, outs))
    (lobby : Lobby) (hL : objGet s2 L = some lobby) :
    (∃ banned, lobby.banned = some banned ∧ t ∈ banned)
      ∧ objGet lobby.users t = none
      ∧ ∀ userName cb2, handle s2 t (Event.join_lobby L userName cb2)
          = some (s2, callback cb2 (Msg.error "You are banned from this lobby")) := by
  obtain ⟨l1, hl1, hs1⟩ := ban_user_success hban hok
  have hn1 : NodupKeys s1 := reachable_nodupKeys (Reachable.step h _ hs hban)
  have h1 : ∀ lobby, (L, lobby) ∈ s1 → BannedOut t lobby := by
    intro lobby hm
    have hg := objGet_of_mem hn1 hm
    rw [hs1, objGet_objSet] at hg
    simp only [if_true, Option.some.injEq] at hg
    exact hg ▸ hl1
  obtain ⟨⟨banned, hb, ht⟩, hu⟩ := run_bannedOut es hrun hfresh h1 lobby (objGet_mem hL)
  refine ⟨⟨banned, hb, ht⟩, hu, ?_⟩
  intro userName cb2
  simp [handle, join_lobby, hL, isBanned, hb, ht]

theorem ban_persists_witness :
    (∃ banned, transferredLobby.banned = some banned ∧ "b" ∈ banned)
      ∧ objGet transferredLobby.users "b" = none
      ∧ ∀ userName cb2, handle [("L", transferredLobby)] "b" (Event.join_lobby "L" userName cb2)
          = some ([("L", transferredLobby)],
              callback cb2 (Msg.error "You are banned from this lobby")) :=
  ban_persists twoMemberRegistry twoMemberRegistry_reachable "a" "b" "L" true
    [("L", bannedLobby)] _ rfl (by decide)
    [("c", Event.join_lobby "L" "Carol" true), ("a", Event.transfer_host "L" "c" true)]
    (by intro c uuid hostName cb2 hm; simp at hm)
    [("L", transferredLobby)] _ rfl transferredLobby (by decide)


/-! ## The comparator -/

/-- For any two entries the comparator puts one of them not after the other. -/
theorem compareVideos_total (names : List String) (a b : Video)
    (h : ¬ compareVideos names a b ≤ 0) : compareVideos names b a ≤ 0 := by
  unfold compareVideos at *
  simp only [decide_eq_true_eq] at *
  split_ifs at * <;> first | omega | tauto

/-- When no `dislikes` is negative, `a` does not have to follow `b` exactly when
`b` is disliked, or neither is and `a` wins on the adder being present, then on
likes. -/
theorem compareVideos_le_iff (names : List String) (a b : Video)
    (ha : 0 ≤ a.dislikes) (hb : 0 ≤ b.dislikes) :
    compareVideos names a b ≤ 0 ↔
      0 < b.dislikes
      ∨ (a.dislikes = 0 ∧ b.dislikes = 0
          ∧ ((a.addedBy ∈ names ∧ b.addedBy ∉ names)
            ∨ ((a.addedBy ∈ names ↔ b.addedBy ∈ names) ∧ b.likes ≤ a.likes))) := by
  unfold compareVideos
  simp only [decide_eq_true_eq]
  by_cases hA : a.addedBy ∈ names <;> by_cases hB : b.addedBy ∈ names <;>
    simp only [hA, hB, true_and, false_and, and_true, and_false, not_true_eq_false,
      not_false_eq_true, if_true, if_false, or_false, false_or, true_iff, iff_true,
      iff_false, false_iff, and_self] <;>
    split_ifs <;> omega

/-- On entries whose `dislikes` is not negative the comparator is transitive. -/
theorem compareVideos_trans (names : List String) (a b c : Video)
    (ha : 0 ≤ a.dislikes) (hb : 0 ≤ b.dislikes) (hc : 0 ≤ c.dislikes)
    (hab : compareVideos names a b ≤ 0) (hbc : compareVideos names b c ≤ 0) :
    compareVideos names a c ≤ 0 := by
  rw [compareVideos_le_iff names _ _ ha hb] at hab
  rw [compareVideos_le_iff names _ _ hb hc] at hbc
  rw [compareVideos_le_iff names _ _ ha hc]
  by_cases hA : a.addedBy ∈ names <;> by_cases hB : b.addedBy ∈ names <;>
    by_cases hC : c.addedBy ∈ names <;>
    simp only [hA, hB, hC, true_and, false_and, and_true, and_false, not_true_eq_false,
      not_false_eq_true, or_false, false_or, true_iff, iff_true,
      iff_false, false_iff, and_self, iff_self] at hab hbc ⊢ <;>
    omega


/-! ## Sortedness of the stable sort -/

/-- Inserting into a list in which each element does not have to follow the
next one gives such a list again; only totality of the comparator is used. -/
theorem sortInsert_chain {α : Type} (cmp : α → α → Int)
    (total : ∀ a b, ¬ cmp a b ≤ 0 → cmp b a ≤ 0) (a : α) (l : List α)
    (hl : l.Chain' (fun x y => cmp x y ≤ 0)) :
    (sortInsert cmp a l).Chain' (fun x y => cmp x y ≤ 0) := by
  induction l with
  | nil => exact List.chain'_singleton a
  | cons b l ih =>
    simp only [sortInsert]
    split
    · next hab => exact List.Chain'.cons hab hl
    · next hab =>
      have ih2 := ih hl.tail
      cases l with
      | nil => exact List.Chain'.cons (total a b hab) (List.chain'_singleton a)
      | cons d l =>
        simp only [sortInsert] at ih2 ⊢
        split
        · next had =>
          exact List.Chain'.cons (total a b hab) (by simpa [had] using ih2)
        · next had =>
          exact List.Chain'.cons (hl.rel_head : cmp b d ≤ 0) (by simpa [had] using ih2)

theorem arraySort_chain {α : Type} (cmp : α → α → Int)
    (total : ∀ a b, ¬ cmp a b ≤ 0 → cmp b a ≤ 0) (l : List α) :
    (arraySort cmp l).Chain' (fun x y => cmp x y ≤ 0) := by
  induction l with
  | nil => exact List.chain'_nil
  | cons a l ih => exact sortInsert_chain cmp total a _ ih

/-- The sort leaves a list alone in which no element has to follow the next one. -/
theorem arraySort_of_chain {α : Type} (cmp : α → α → Int) (l : List α)
    (hl : l.Chain' (fun x y => cmp x y ≤ 0)) : arraySort cmp l = l := by
  induction l with
  | nil => rfl
  | cons a l ih =>
    simp only [arraySort, ih hl.tail]
    cases l with
    | nil => rfl
    | cons b l => simp only [sortInsert, (hl.rel_head : cmp a b ≤ 0), if_true]

theorem arraySort_arraySort {α : Type} (cmp : α → α → Int)
    (total : ∀ a b, ¬ cmp a b ≤ 0 → cmp b a ≤ 0) (l : List α) :
    arraySort cmp (arraySort cmp l) = arraySort cmp l :=
  arraySort_of_chain cmp _ (arraySort_chain cmp total l)

theorem sortInsert_pairwise {α : Type} (cmp : α → α → Int) (P : α → Prop)
    (total : ∀ a b, ¬ cmp a b ≤ 0 → cmp b a ≤ 0)
    (trans : ∀ a b c, P a → P b → P c → cmp a b ≤ 0 → cmp b c ≤ 0 → cmp a c ≤ 0)
    (a : α) (l : List α) (ha : P a) (hP : ∀ x ∈ l, P x)
    (hl : l.Pairwise (fun x y => cmp x y ≤ 0)) :
    (sortInsert cmp a l).Pairwise (fun x y => cmp x y ≤ 0) := by
  induction l with
  | nil => exact List.pairwise_singleton _ a
  | cons b l ih =>
    have hb : P b := hP b (List.mem_cons_self _ _)
    have hPl : ∀ x ∈ l, P x := fun x hx => hP x (List.mem_cons_of_mem _ hx)
    rw [List.pairwise_cons] at hl
    simp only [sortInsert]
    split
    · next hab =>
      rw [List.pairwise_cons]
      refine ⟨?_, List.pairwise_cons.mpr hl⟩
      intro x hx
      rcases List.mem_cons.mp hx with hx | hx
      · exact hx ▸ hab
      · exact trans a b x ha hb (hPl x hx) hab (hl.1 x hx)
    · next hab =>
      rw [List.pairwise_cons]
      refine ⟨?_, ih hPl hl.2⟩
      intro x hx
      rcases List.mem_cons.mp ((sortInsert_perm cmp a l).mem_iff.mp hx) with hx | hx
      · exact hx ▸ total a b hab
      · exact hl.1 x hx

/-- The sort puts every element before all those it does not have to follow,
when the comparator is total and is transitive on the elements of the list. -/
theorem arraySort_pairwise {α : Type} (cmp : α → α → Int) (P : α → Prop)
    (total : ∀ a b, ¬ cmp a b ≤ 0 → cmp b a ≤ 0)
    (trans : ∀ a b c, P a → P b → P c → cmp a b ≤ 0 → cmp b c ≤ 0 → cmp a c ≤ 0)
    (l : List α) (hP : ∀ x ∈ l, P x) :
    (arraySort cmp l).Pairwise (fun x y => cmp x y ≤ 0) := by
  induction l with
  | nil => exact List.Pairwise.nil
  | cons a l ih =>
    have hPl : ∀ x ∈ l, P x := fun x hx => hP x (List.mem_cons_of_mem _ hx)
    exact sortInsert_pairwise cmp P total trans a _ (hP a (List.mem_cons_self _ _))
      (fun x hx => hPl x (mem_arraySort.mp hx)) (ih hPl)

theorem filter_sortInsert {α : Type} (cmp : α → α → Int) (p : α → Bool) (a : α)
    (h : ∀ b, p a = true → p b = true → cmp a b ≤ 0) (l : List α) :
    (sortInsert cmp a l).filter p = (a :: l).filter p := by
  induction l with
  | nil => rfl
  | cons b l ih =>
    simp only [sortInsert]
    split
    · rfl
    · next hab =>
      by_cases hpa : p a = true
      · have hpb : p b = false := by
          cases hb : p b with
          | false => rfl
          | true => exact absurd (h b hpa hb) hab
        simp only [List.filter_cons, hpb, ih, hpa, if_true, Bool.false_eq_true, if_false]
      · simp only [Bool.not_eq_true] at hpa
        simp only [List.filter_cons, ih, hpa, Bool.false_eq_true, if_false]

/-- The sort keeps the order of the elements of a class within which no element
has to follow another. -/
theorem filter_arraySort {α : Type} (cmp : α → α → Int) (p : α → Bool)
    (h : ∀ a b, p a = true → p b = true → cmp a b ≤ 0) (l : List α) :
    (arraySort cmp l).filter p = l.filter p := by
  induction l with
  | nil => rfl
  | cons a l ih =>
    simp only [arraySort, filter_sortInsert cmp p a (h a), List.filter_cons, ih]

theorem compareVideos_disliked (names : List String) (a b : Video)
    (ha : 0 < a.dislikes) (hb : 0 < b.dislikes) : compareVideos names a b ≤ 0 := by
  unfold compareVideos
  have h1 : ¬ b.dislikes = 0 := by omega
  have h2 : ¬ a.dislikes = 0 := by omega
  simp [ha, hb, h1, h2]

/-! ## Queue ordering -/

/-- C8: on a non-empty queue `reorderQueue` returns a lobby on which
`reorderQueue`, run again with the same members and votes, returns that same
lobby: reordering is a function of the lobby and its result is a fixed point. -/
theorem reorderQueue_idempotent (lobby : Lobby) (hq : lobby.queue ≠ []) :
    ∃ once, reorderQueue lobby = some once ∧ reorderQueue once = some once := by
  cases hl : lobby.queue with
  | nil => exact absurd hl hq
  | cons current rest =>
    refine ⟨reordered lobby current rest, by simp only [reorderQueue, hl, reordered], ?_⟩
    simp only [reorderQueue, reordered,
      arraySort_arraySort _ (compareVideos_total (lobby.users.map fun p => p.2.name))]

theorem reorderQueue_idempotent_witness :
    ∃ once, reorderQueue mixedLobby = some once ∧ reorderQueue once = some once :=
  reorderQueue_idempotent mixedLobby (by decide)

/-- C9: on a non-empty queue whose entries have no negative `dislikes`, after
`reorderQueue` no entry at a position ≥ 1 with `dislikes > 0` stands before an
entry at a position ≥ 1 with `dislikes = 0`. -/
theorem reorderQueue_disliked_last (lobby : Lobby) (hq : lobby.queue ≠ [])
    (hd : ∀ v ∈ lobby.queue.tail, 0 ≤ v.dislikes) :
    ∃ next, reorderQueue lobby = some next
      ∧ next.queue.tail.Pairwise (fun a b => ¬ (a.dislikes > 0 ∧ b.dislikes = 0)) := by
  cases hl : lobby.queue with
  | nil => exact absurd hl hq
  | cons current rest =>
    rw [hl] at hd
    refine ⟨reordered lobby current rest, by simp only [reorderQueue, hl, reordered], ?_⟩
    simp only [reordered, List.tail_cons]
    have hs := arraySort_pairwise (compareVideos (lobby.users.map fun p => p.2.name))
      (fun v => 0 ≤ v.dislikes) (compareVideos_total _)
      (compareVideos_trans _) rest hd
    refine hs.imp ?_
    intro a b hab hcon
    unfold compareVideos at hab
    simp [hcon.1, hcon.2] at hab

theorem reorderQueue_disliked_last_witness :
    ∃ next, reorderQueue mixedLobby = some next
      ∧ next.queue.tail.Pairwise (fun a b => ¬ (a.dislikes > 0 ∧ b.dislikes = 0)) :=
  reorderQueue_disliked_last mixedLobby (by decide) (by decide)

/-- C10 (as stated, fails): the reachable lobby `staleLobby` is what the last
`like_video` left after `reorderQueue`; at positions 1 and 2 both entries have
`dislikes > 0`, the first was added by Bob, who is no longer a member, the
second by the member Alice, and `reorderQueue` keeps them in that order. -/
theorem disliked_entries_ignore_adder :
    (run [] [("a", Event.create_lobby "L" "Alice" false),
        ("b", Event.join_lobby "L" "Bob" false),
        ("b", Event.add_video "L" "youtu.be/x" false),
        ("a", Event.add_video "L" "youtu.be/y" false),
        ("a", Event.add_video "L" "youtu.be/h" false),
        ("a", Event.dislike_video "L" false false), ("a", Event.skip_video "L" false),
        ("a", Event.dislike_video "L" false false), ("a", Event.skip_video "L" false),
        ("b", Event.disconnect), ("a", Event.like_video "L" false false)]).map Prod.fst
      = some [("L", staleLobby)]
    ∧ reorderQueue staleLobby = some staleLobby
    ∧ staleLobby.queue = [headVideo, staleX, staleY]
    ∧ staleX.dislikes > 0 ∧ staleY.dislikes > 0
    ∧ staleX.addedBy ∉ staleLobby.users.map (fun p => p.2.name)
    ∧ staleY.addedBy ∈ staleLobby.users.map (fun p => p.2.name) := by
  refine ⟨by decide, by decide, rfl, by decide, by decide, by decide, by decide⟩

/-- C10 (amended): on a non-empty queue whose entries have no negative
`dislikes`, after `reorderQueue`, of two entries at positions ≥ 1 that both have
`dislikes = 0` the one whose `addedBy` is the name of a current member never
comes after one whose `addedBy` is not; the entries with `dislikes > 0` keep the
order they had, whoever added them. -/
theorem reorderQueue_present_adder_first (lobby : Lobby) (hq : lobby.queue ≠ [])
    (hd : ∀ v ∈ lobby.queue.tail, 0 ≤ v.dislikes) :
    ∃ next, reorderQueue lobby = some next
      ∧ next.queue.tail.Pairwise (fun a b => a.dislikes = 0 → b.dislikes = 0 →
          b.addedBy ∈ lobby.users.map (fun p => p.2.name) →
          a.addedBy ∈ lobby.users.map (fun p => p.2.name))
      ∧ next.queue.tail.filter (fun v => decide (v.dislikes > 0))
          = lobby.queue.tail.filter (fun v => decide (v.dislikes > 0)) := by
  cases hl : lobby.queue with
  | nil => exact absurd hl hq
  | cons current rest =>
    rw [hl] at hd
    refine ⟨reordered lobby current rest, by simp only [reorderQueue, hl, reordered], ?_, ?_⟩
    · simp only [reordered, List.tail_cons]
      have hs := arraySort_pairwise (compareVideos (lobby.users.map fun p => p.2.name))
        (fun v => 0 ≤ v.dislikes) (compareVideos_total _)
        (compareVideos_trans _) rest hd
      refine hs.imp ?_
      intro a b hab ha hb hbm
      by_contra ham
      unfold compareVideos at hab
      simp [ha, hb, hbm, ham] at hab
    · simp only [reordered, List.tail_cons]
      refine filter_arraySort _ _ ?_ rest
      intro a b ha hb
      simp only [decide_eq_true_eq] at ha hb
      exact compareVideos_disliked _ a b ha hb

theorem reorderQueue_present_adder_first_witness :
    ∃ next, reorderQueue mixedLobby = some next
      ∧ next.queue.tail.Pairwise (fun a b => a.dislikes = 0 → b.dislikes = 0 →
          b.addedBy ∈ mixedLobby.users.map (fun p => p.2.name) →
          a.addedBy ∈ mixedLobby.users.map (fun p => p.2.name))
      ∧ next.queue.tail.filter (fun v => decide (v.dislikes > 0))
          = mixedLobby.queue.tail.filter (fun v => decide (v.dislikes > 0)) :=
  reorderQueue_present_adder_first mixedLobby (by decide) (by decide)

theorem reorderQueue_mixedLobby : reorderQueue mixedLobby = some mixedLobbySorted := by
  decide

/-- In a reachable registry no queue entry has a negative `dislikes`. -/
theorem reachable_dislikes_nonneg {s : Lobbies} (hs : Reachable s) :
    ∀ p ∈ s, ∀ v ∈ p.2.queue, 0 ≤ v.dislikes := by
  intro p hp v hv
  have h := (reachable_queueWF hs p hp v hv).1.2.1
  omega


/-! ## Reordering keeps the entries -/

/-- C11: on a non-empty queue `reorderQueue` returns a queue of the same length
with the same entry at position 0 and, behind it, a permutation of the entries
that were behind it. -/
theorem reorderQueue_keeps_entries (lobby : Lobby) (hq : lobby.queue ≠ []) :
    ∃ next, reorderQueue lobby = some next
      ∧ next.queue.length = lobby.queue.length
      ∧ next.queue.head? = lobby.queue.head?
      ∧ next.queue.tail.Perm lobby.queue.tail := by
  cases hl : lobby.queue with
  | nil => exact absurd hl hq
  | cons current rest =>
    refine ⟨reordered lobby current rest, by simp only [reorderQueue, hl, reordered], ?_, ?_, ?_⟩
    · simp only [reordered, List.length_cons, (arraySort_perm _ rest).length_eq]
    · simp only [reordered, List.head?_cons]
    · simp only [reordered, List.tail_cons]
      exact arraySort_perm _ rest

theorem reorderQueue_keeps_entries_witness :
    ∃ next, reorderQueue mixedLobby = some next
      ∧ next.queue.length = mixedLobby.queue.length
      ∧ next.queue.head? = mixedLobby.queue.head?
      ∧ next.queue.tail.Perm mixedLobby.queue.tail :=
  reorderQueue_keeps_entries mixedLobby (by decide)

/-! ## Distinct urls -/

theorem url_likeUndone (c : ConnId) (v : Video) : (likeUndone c v).url = v.url := rfl

theorem url_dislikeUndone (c : ConnId) (v : Video) : (dislikeUndone c v).url = v.url := rfl

theorem url_liked (c : ConnId) (v : Video) : (liked c v).url = v.url := by
  unfold liked
  dsimp only
  split <;> rfl

theorem url_disliked (c : ConnId) (v : Video) : (disliked c v).url = v.url := by
  unfold disliked
  dsimp only
  split <;> rfl

theorem urlsOk_reordered {lobby : Lobby} {video head : Video} {rest : List Video}
    (h : UrlsOk lobby) (hq : lobby.queue = video :: rest) (hu : head.url = video.url) :
    UrlsOk (reordered lobby head rest) := by
  obtain ⟨h1, h2⟩ := h
  rw [hq] at h1 h2
  constructor
  · have hp : ((reordered lobby head rest).queue.map fun v => v.url).Perm
        ((video :: rest).map fun v => v.url) := by
      simp only [reordered, List.map_cons, hu]
      exact List.Perm.cons _ ((arraySort_perm _ rest).map _)
    exact hp.nodup_iff.mpr h1
  · intro v hv
    simp only [reordered, List.mem_cons, mem_arraySort] at hv
    rcases hv with hv | hv
    · rw [hv, hu]
      exact h2 video (List.mem_cons_self _ _)
    · exact h2 v (List.mem_cons_of_mem _ hv)

/-- One step of a lobby keeps the urls of its queue distinct and well-formed. -/
theorem LobbyStep.urlsOk {c : ConnId} {lobby next : Lobby} (hstep : LobbyStep c lobby next)
    (h : UrlsOk lobby) : UrlsOk next := by
  cases hstep with
  | join userName hb => exact h
  | add user url hu hre hdup =>
    obtain ⟨h1, h2⟩ := h
    constructor
    · simp only [List.map_append, List.map_cons, List.map_nil, newVideo]
      rw [List.nodup_append]
      refine ⟨h1, List.nodup_singleton _, ?_⟩
      intro a ha hb
      rw [List.mem_singleton] at hb
      subst hb
      obtain ⟨v, hv, hvu⟩ := List.mem_map.mp ha
      have hfalse := List.any_eq_false.mp hdup v hv
      simp only [decide_eq_true_eq] at hfalse
      exact hfalse hvu
    · intro v hv
      rcases List.mem_append.mp hv with hv | hv
      · exact h2 v hv
      · rw [List.mem_singleton] at hv
        rw [hv]
        exact hre
  | skip video rest hh hq =>
    obtain ⟨h1, h2⟩ := h
    rw [hq] at h1 h2
    constructor
    · have hp : ((rest ++ [{ video with played := true }]).map fun (v : Video) => v.url).Perm
          ((video :: rest).map fun (v : Video) => v.url) := by
        simp only [List.map_append, List.map_cons, List.map_nil]
        exact List.perm_append_singleton _ _
      exact hp.nodup_iff.mpr h1
    · intro v hv
      rcases List.mem_append.mp hv with hv | hv
      · exact h2 v (List.mem_cons_of_mem _ hv)
      · rw [List.mem_singleton] at hv
        rw [hv]
        exact h2 video (List.mem_cons_self _ _)
  | kick target u hh ht hne => exact h
  | delete index hh h0 h1 =>
    obtain ⟨h1, h2⟩ := h
    exact ⟨h1.sublist ((List.eraseIdx_sublist _ _).map _),
      fun v hv => h2 v ((List.eraseIdx_sublist _ _).subset hv)⟩
  | likeUndo user video rest hu hq hv => exact urlsOk_reordered h hq (url_likeUndone c video)
  | like user video rest hu hq hv => exact urlsOk_reordered h hq (url_liked c video)
  | dislikeUndo user video rest hu hq hv =>
    exact urlsOk_reordered h hq (url_dislikeUndone c video)
  | dislike user video rest hu hq hv => exact urlsOk_reordered h hq (url_disliked c video)
  | ban target u hh ht hne => exact h
  | transfer target u me newHost hh ht hne hme hnew => exact h
  | kickInherited target name hh ht hin hne => exact h
  | banInherited target name hh ht hin hne => exact h
  | transferInherited target name me hh ht hin hne hme => exact h
  | leave user hu hf => exact h
  | leavePromote user newHostId newHost others hu hf hrest => exact h

theorem reachable_urlsOk {s : Lobbies} (hs : Reachable s) : ∀ p ∈ s, UrlsOk p.2 := by
  induction hs with
  | init => intro p hp; simp at hp
  | step c e _ hh ih =>
    intro p hp
    rcases handle_entry hh hp with (h | ⟨lobby, hl, hstep⟩) | ⟨uuid, hostName, cb, _, rfl⟩
    · exact ih p h
    · exact hstep.urlsOk (ih _ hl)
    · exact ⟨by simp [freshLobby], by simp [freshLobby]⟩

/-- C12: in every reachable registry the urls of the queue of each lobby are
pairwise distinct; `add_video` with the url of a queued entry leaves the
registry unchanged, answering a member with the duplicate error; and whatever
event is handled next, the urls of every queue are again pairwise distinct. -/
theorem queue_urls_distinct (s : Lobbies) (hs : Reachable s) (lobbyId : LobbyId)
    (lobby : Lobby) (hl : (lobbyId, lobby) ∈ s) :
    (lobby.queue.map fun v => v.url).Nodup
      ∧ (∀ c url cb, url ∈ (lobby.queue.map fun v => v.url) →
          ∃ out, handle s c (Event.add_video lobbyId url cb) = some (s, out)
            ∧ ((objGet lobby.users c).isSome →
                out = callback cb (Msg.error "Video already in queue")))
      ∧ (∀ c e t out, handle s c e = some (t, out) →
          ∀ p ∈ t, (p.2.queue.map fun v => v.url).Nodup) := by
  have hok := reachable_urlsOk hs _ hl
  refine ⟨hok.1, ?_, ?_⟩
  · intro c url cb hurl
    obtain ⟨v, hv, hvu⟩ := List.mem_map.mp hurl
    have hg := objGet_of_mem (reachable_nodupKeys hs) hl
    have hre : ytRegexTest url = true := hvu ▸ hok.2 v hv
    have hany : (lobby.queue.any fun v => decide (v.url = url)) = true :=
      List.any_eq_true.mpr ⟨v, hv, by simpa using hvu⟩
    cases hu : objGet lobby.users c with
    | none => exact ⟨[], by simp [handle, add_video, hg, hu], by simp⟩
    | some user =>
      exact ⟨callback cb (Msg.error "Video already in queue"),
        by simp [handle, add_video, hg, hu, hre, hany], fun _ => rfl⟩
  · intro c e t out hh p hp
    exact (reachable_urlsOk (Reachable.step c e hs hh) p hp).1

theorem queue_urls_distinct_witness :
    (twoMemberLobby.queue.map fun v => v.url).Nodup
      ∧ (∀ c url cb, url ∈ (twoMemberLobby.queue.map fun v => v.url) →
          ∃ out, handle twoMemberRegistry c (Event.add_video "L" url cb)
              = some (twoMemberRegistry, out)
            ∧ ((objGet twoMemberLobby.users c).isSome →
                out = callback cb (Msg.error "Video already in queue")))
      ∧ (∀ c e t out, handle twoMemberRegistry c e = some (t, out) →
          ∀ p ∈ t, (p.2.queue.map fun v => v.url).Nodup) :=
  queue_urls_distinct twoMemberRegistry twoMemberRegistry_reachable "L" twoMemberLobby
    (List.mem_singleton.mpr rfl)


/-! ## Effect of a vote -/

theorem liked_likedBy (c : ConnId) (v : Video) : (liked c v).likedBy = v.likedBy ++ [c] := by
  unfold liked
  dsimp only
  split <;> rfl

theorem liked_likes (c : ConnId) (v : Video) : (liked c v).likes = v.likes + 1 := by
  unfold liked
  dsimp only
  split <;> rfl

theorem liked_dislikedBy (c : ConnId) (v : Video) :
    (liked c v).dislikedBy = v.dislikedBy.erase c := by
  unfold liked
  dsimp only
  split
  · rfl
  · next h => exact (List.erase_of_not_mem h).symm

theorem liked_dislikes (c : ConnId) (v : Video) :
    (liked c v).dislikes = v.dislikes - (if c ∈ v.dislikedBy then 1 else 0) := by
  unfold liked
  dsimp only
  split
  · rfl
  · simp

theorem disliked_dislikedBy (c : ConnId) (v : Video) :
    (disliked c v).dislikedBy = v.dislikedBy ++ [c] := by
  unfold disliked
  dsimp only
  split <;> rfl

theorem disliked_dislikes (c : ConnId) (v : Video) :
    (disliked c v).dislikes = v.dislikes + 1 := by
  unfold disliked
  dsimp only
  split <;> rfl

theorem disliked_likedBy (c : ConnId) (v : Video) :
    (disliked c v).likedBy = v.likedBy.erase c := by
  unfold disliked
  dsimp only
  split
  · rfl
  · next h => exact (List.erase_of_not_mem h).symm

theorem disliked_likes (c : ConnId) (v : Video) :
    (disliked c v).likes = v.likes - (if c ∈ v.likedBy then 1 else 0) := by
  unfold disliked
  dsimp only
  split
  · rfl
  · simp

/-- A like without undo by a member, on a head with well-formed votes: the
handler answers, the lobby keeps its members, the new head has well-formed
votes and the outcome of a like, and a further like changes nothing. -/
theorem like_video_result (s : Lobbies) (lobbyId : LobbyId) (lobby : Lobby) (c : ConnId)
    (user : User) (head : Video) (rest : List Video) (cb : Bool)
    (hl : objGet s lobbyId = some lobby) (hu : objGet lobby.users c = some user)
    (hq : lobby.queue = head :: rest) (hwf : VideoWF head) :
    ∃ s1 out1 lobby1 head1 rest1,
      handle s c (Event.like_video lobbyId false cb) = some (s1, out1)
        ∧ objGet s1 lobbyId = some lobby1 ∧ lobby1.users = lobby.users
        ∧ lobby1.queue = head1 :: rest1 ∧ VideoWF head1 ∧ LikeOutcome c head head1
        ∧ ∀ cb2, handle s1 c (Event.like_video lobbyId false cb2) = some (s1, []) := by
  by_cases hv : c ∈ head.likedBy
  · refine ⟨s, [], lobby, head, rest, ?_, hl, rfl, hq, hwf, ?_, ?_⟩
    · simp [handle, like_video, hl, hu, hq, hv]
    · have hd : c ∉ head.dislikedBy := hwf.1.2.2 c hv
      exact ⟨hv, hd, by simp [hv], by simp [hd]⟩
    · intro cb2
      simp [handle, like_video, hl, hu, hq, hv]
  · have hmem : c ∈ (liked c head).likedBy := by simp [liked_likedBy]
    refine ⟨objSet s lobbyId (reordered lobby (liked c head) rest),
      broadcastQueue (objSet s lobbyId (reordered lobby (liked c head) rest)) lobbyId
        ++ callback cb Msg.success,
      reordered lobby (liked c head) rest, liked c head,
      arraySort (compareVideos (lobby.users.map fun (p : ConnId × User) => p.2.name)) rest,
      ?_, ?_, rfl, rfl,
      videoWF_liked hwf hv, ⟨hmem, ?_, ?_, ?_⟩, ?_⟩
    · simp only [handle, like_video, hl, hu, hq, hv, reorderAndBroadcast, reorderQueue,
        Bool.false_eq_true, if_false, not_false_eq_true, if_true]
      rfl
    · simp [objGet_objSet]
    · rw [liked_dislikedBy]
      exact List.Nodup.not_mem_erase hwf.2.2
    · simp [liked_likes, hv]
    · exact liked_dislikes c head
    · intro cb2
      simp [handle, like_video, objGet_objSet, reordered, hu, hmem]

/-- The statement of `like_video_result` for a dislike. -/
theorem dislike_video_result (s : Lobbies) (lobbyId : LobbyId) (lobby : Lobby) (c : ConnId)
    (user : User) (head : Video) (rest : List Video) (cb : Bool)
    (hl : objGet s lobbyId = some lobby) (hu : objGet lobby.users c = some user)
    (hq : lobby.queue = head :: rest) (hwf : VideoWF head) :
    ∃ s1 out1 lobby1 head1 rest1,
      handle s c (Event.dislike_video lobbyId false cb) = some (s1, out1)
        ∧ objGet s1 lobbyId = some lobby1 ∧ lobby1.users = lobby.users
        ∧ lobby1.queue = head1 :: rest1 ∧ VideoWF head1 ∧ DislikeOutcome c head head1
        ∧ ∀ cb2, handle s1 c (Event.dislike_video lobbyId false cb2) = some (s1, []) := by
  by_cases hv : c ∈ head.dislikedBy
  · refine ⟨s, [], lobby, head, rest, ?_, hl, rfl, hq, hwf, ?_, ?_⟩
    · simp [handle, dislike_video, hl, hu, hq, hv]
    · have hd : c ∉ head.likedBy := fun h => hwf.1.2.2 c h hv
      exact ⟨hv, hd, by simp [hv], by simp [hd]⟩
    · intro cb2
      simp [handle, dislike_video, hl, hu, hq, hv]
  · have hmem : c ∈ (disliked c head).dislikedBy := by simp [disliked_dislikedBy]
    refine ⟨objSet s lobbyId (reordered lobby (disliked c head) rest),
      broadcastQueue (objSet s lobbyId (reordered lobby (disliked c head) rest)) lobbyId
        ++ callback cb Msg.success,
      reordered lobby (disliked c head) rest, disliked c head,
      arraySort (compareVideos (lobby.users.map fun (p : ConnId × User) => p.2.name)) rest,
      ?_, ?_, rfl, rfl,
      videoWF_disliked hwf hv, ⟨hmem, ?_, ?_, ?_⟩, ?_⟩
    · simp only [handle, dislike_video, hl, hu, hq, hv, reorderAndBroadcast, reorderQueue,
        Bool.false_eq_true, if_false, not_false_eq_true, if_true]
      rfl
    · simp [objGet_objSet]
    · rw [disliked_likedBy]
      exact List.Nodup.not_mem_erase hwf.2.1
    · simp [disliked_dislikes, hv]
    · exact disliked_likes c head
    · intro cb2
      simp [handle, dislike_video, objGet_objSet, reordered, hu, hmem]


theorem headOf_eq {s : Lobbies} {lobbyId : LobbyId} {lobby : Lobby} {head : Video}
    {rest : List Video} (hl : objGet s lobbyId = some lobby) (hq : lobby.queue = head :: rest) :
    headOf s lobbyId = some head := by
  simp [headOf, hl, hq]

/-- C13: in a reachable registry, for a member `c` of a lobby with a non-empty
queue: `like_video` without undo leaves `c` among the likers of the head and
not among its dislikers, `likes` one higher exactly when `c` had not liked and
`dislikes` one lower exactly when `c` had disliked; a second like changes
nothing; a dislike after the like leaves `c` in no place of `likedBy` and in one
place of `dislikedBy`, with the counters equal to the array sizes; and
`dislike_video` behaves symmetrically. -/
theorem vote_effect (s : Lobbies) (hs : Reachable s) (lobbyId : LobbyId) (lobby : Lobby)
    (c : ConnId) (user : User) (head : Video) (rest : List Video) (cb : Bool)
    (hl : objGet s lobbyId = some lobby) (hu : objGet lobby.users c = some user)
    (hq : lobby.queue = head :: rest) :
    (∃ s1 out1 head1, handle s c (Event.like_video lobbyId false cb) = some (s1, out1)
        ∧ headOf s1 lobbyId = some head1 ∧ LikeOutcome c head head1
        ∧ (∀ cb2, handle s1 c (Event.like_video lobbyId false cb2) = some (s1, []))
        ∧ ∃ s2 out2 head2,
            handle s1 c (Event.dislike_video lobbyId false cb) = some (s2, out2)
            ∧ headOf s2 lobbyId = some head2
            ∧ head2.likedBy.count c = 0 ∧ head2.dislikedBy.count c = 1
            ∧ head2.likes = head2.likedBy.length ∧ head2.dislikes = head2.dislikedBy.length)
    ∧ (∃ s1 out1 head1, handle s c (Event.dislike_video lobbyId false cb) = some (s1, out1)
        ∧ headOf s1 lobbyId = some head1 ∧ DislikeOutcome c head head1
        ∧ ∀ cb2, handle s1 c (Event.dislike_video lobbyId false cb2) = some (s1, [])) := by
  have hwf : VideoWF head :=
    reachable_queueWF hs _ (objGet_mem hl) head (by rw [hq]; exact List.mem_cons_self _ _)
  constructor
  · obtain ⟨s1, out1, lobby1, head1, rest1, h1, hl1, hu1, hq1, hwf1, ho1, hn1⟩ :=
      like_video_result s lobbyId lobby c user head rest cb hl hu hq hwf
    obtain ⟨s2, out2, lobby2, head2, rest2, h2, hl2, _, hq2, hwf2, ho2, _⟩ :=
      dislike_video_result s1 lobbyId lobby1 c user head1 rest1 cb hl1 (hu1 ▸ hu) hq1 hwf1
    refine ⟨s1, out1, head1, h1, headOf_eq hl1 hq1, ho1, hn1, s2, out2, head2, h2,
      headOf_eq hl2 hq2, List.count_eq_zero.mpr ho2.2.1,
      List.count_eq_one_of_mem hwf2.2.2 ho2.1, hwf2.1.1, hwf2.1.2.1⟩
  · obtain ⟨s1, out1, lobby1, head1, rest1, h1, hl1, _, hq1, _, ho1, hn1⟩ :=
      dislike_video_result s lobbyId lobby c user head rest cb hl hu hq hwf
    exact ⟨s1, out1, head1, h1, headOf_eq hl1 hq1, ho1, hn1⟩

theorem vote_effect_witness :
    (∃ s1 out1 head1,
        handle twoMemberRegistry "b" (Event.like_video "L" false true) = some (s1, out1)
        ∧ headOf s1 "L" = some head1
        ∧ LikeOutcome "b" (newVideo "https://youtu.be/abc12345678" "Alice") head1
        ∧ (∀ cb2, handle s1 "b" (Event.like_video "L" false cb2) = some (s1, []))
        ∧ ∃ s2 out2 head2,
            handle s1 "b" (Event.dislike_video "L" false true) = some (s2, out2)
            ∧ headOf s2 "L" = some head2
            ∧ head2.likedBy.count "b" = 0 ∧ head2.dislikedBy.count "b" = 1
            ∧ head2.likes = head2.likedBy.length ∧ head2.dislikes = head2.dislikedBy.length)
    ∧ (∃ s1 out1 head1,
        handle twoMemberRegistry "b" (Event.dislike_video "L" false true) = some (s1, out1)
        ∧ headOf s1 "L" = some head1
        ∧ DislikeOutcome "b" (newVideo "https://youtu.be/abc12345678" "Alice") head1
        ∧ ∀ cb2, handle s1 "b" (Event.dislike_video "L" false cb2) = some (s1, [])) :=
  vote_effect twoMemberRegistry twoMemberRegistry_reachable "L" twoMemberLobby "b"
    ⟨"Bob", false⟩ (newVideo "https://youtu.be/abc12345678" "Alice") [] true
    (by decide) (by decide) rfl

/-- The scenario of the specification: Bob likes the head, likes it again, then
dislikes it. -/
theorem vote_scenario :
    (run twoMemberRegistry [("b", Event.like_video "L" false true)]).map
        (fun r => headOf r.1 "L")
      = some (some { newVideo "https://youtu.be/abc12345678" "Alice" with
          likes := 1, likedBy := ["b"] })
    ∧ (run twoMemberRegistry [("b", Event.like_video "L" false true),
        ("b", Event.like_video "L" false true)]).map (fun r => headOf r.1 "L")
      = some (some { newVideo "https://youtu.be/abc12345678" "Alice" with
          likes := 1, likedBy := ["b"] })
    ∧ (run twoMemberRegistry [("b", Event.like_video "L" false true),
        ("b", Event.like_video "L" false true),
        ("b", Event.dislike_video "L" false true)]).map (fun r => headOf r.1 "L")
      = some (some { newVideo "https://youtu.be/abc12345678" "Alice" with
          likes := 0, dislikes := 1, likedBy := [], dislikedBy := ["b"] }) := by
  decide

/-! ## Undoing a vote -/

/-- C14: in a reachable registry, for a registered lobby, after `like_video`
with `undo` from `c` a second one leaves the registry as it is and emits
nothing, so twice is once; an undo by a socket that is not among the likers of
the head changes nothing; and the same holds for `dislike_video` with `undo`. -/
theorem undo_twice_is_once (s : Lobbies) (hs : Reachable s) (c : ConnId) (lobbyId : LobbyId)
    (registered : Lobby) (hreg : objGet s lobbyId = some registered) (cb : Bool) :
    (∃ s1 out1, handle s c (Event.like_video lobbyId true cb) = some (s1, out1)
        ∧ ∀ cb2, handle s1 c (Event.like_video lobbyId true cb2) = some (s1, []))
    ∧ (∀ lobby head rest, objGet s lobbyId = some lobby → lobby.queue = head :: rest →
        c ∉ head.likedBy →
        ∀ cb2, handle s c (Event.like_video lobbyId true cb2) = some (s, []))
    ∧ (∃ s1 out1, handle s c (Event.dislike_video lobbyId true cb) = some (s1, out1)
        ∧ ∀ cb2, handle s1 c (Event.dislike_video lobbyId true cb2) = some (s1, []))
    ∧ (∀ lobby head rest, objGet s lobbyId = some lobby → lobby.queue = head :: rest →
        c ∉ head.dislikedBy →
        ∀ cb2, handle s c (Event.dislike_video lobbyId true cb2) = some (s, [])) := by
  refine ⟨?_, ?_, ?_, ?_⟩
  · cases hl : objGet s lobbyId with
    | none =>
      rw [hreg] at hl
      exact absurd hl (by simp)
    | some lobby =>
      cases hu : objGet lobby.users c with
      | none =>
        exact ⟨s, [], by simp [handle, like_video, hl, hu], by simp [handle, like_video, hl, hu]⟩
      | some user =>
        cases hq : lobby.queue with
        | nil =>
          exact ⟨s, [], by simp [handle, like_video, hl, hu, hq],
            by simp [handle, like_video, hl, hu, hq]⟩
        | cons head rest =>
          by_cases hv : c ∈ head.likedBy
          · have hwf : VideoWF head := reachable_queueWF hs _ (objGet_mem hl) head
              (by rw [hq]; exact List.mem_cons_self _ _)
            have hnot : c ∉ (likeUndone c head).likedBy := List.Nodup.not_mem_erase hwf.2.1
            refine ⟨objSet s lobbyId (reordered lobby (likeUndone c head) rest),
              broadcastQueue (objSet s lobbyId (reordered lobby (likeUndone c head) rest))
                lobbyId ++ callback cb Msg.success, ?_, ?_⟩
            · simp only [handle, like_video, hl, hu, hq, hv, reorderAndBroadcast, reorderQueue,
                if_true]
              rfl
            · intro cb2
              simp [handle, like_video, objGet_objSet, reordered, hu, hnot]
          · exact ⟨s, [], by simp [handle, like_video, hl, hu, hq, hv],
              by simp [handle, like_video, hl, hu, hq, hv]⟩
  · intro lobby head rest hl hq hv cb2
    cases hu : objGet lobby.users c <;> simp [handle, like_video, hl, hu, hq, hv]
  · cases hl : objGet s lobbyId with
    | none =>
      rw [hreg] at hl
      exact absurd hl (by simp)
    | some lobby =>
      cases hu : objGet lobby.users c with
      | none =>
        exact ⟨s, [], by simp [handle, dislike_video, hl, hu],
          by simp [handle, dislike_video, hl, hu]⟩
      | some user =>
        cases hq : lobby.queue with
        | nil =>
          exact ⟨s, [], by simp [handle, dislike_video, hl, hu, hq],
            by simp [handle, dislike_video, hl, hu, hq]⟩
        | cons head rest =>
          by_cases hv : c ∈ head.dislikedBy
          · have hwf : VideoWF head := reachable_queueWF hs _ (objGet_mem hl) head
              (by rw [hq]; exact List.mem_cons_self _ _)
            have hnot : c ∉ (dislikeUndone c head).dislikedBy :=
              List.Nodup.not_mem_erase hwf.2.2
            refine ⟨objSet s lobbyId (reordered lobby (dislikeUndone c head) rest),
              broadcastQueue (objSet s lobbyId (reordered lobby (dislikeUndone c head) rest))
                lobbyId ++ callback cb Msg.success, ?_, ?_⟩
            · simp only [handle, dislike_video, hl, hu, hq, hv, reorderAndBroadcast,
                reorderQueue, if_true]
              rfl
            · intro cb2
              simp [handle, dislike_video, objGet_objSet, reordered, hu, hnot]
          · exact ⟨s, [], by simp [handle, dislike_video, hl, hu, hq, hv],
              by simp [handle, dislike_video, hl, hu, hq, hv]⟩
  · intro lobby head rest hl hq hv cb2
    cases hu : objGet lobby.users c <;> simp [handle, dislike_video, hl, hu, hq, hv]

theorem undo_twice_is_once_witness :
    (∃ s1 out1, handle [("L", votedLobby)] "b" (Event.like_video "L" true true) = some (s1, out1)
        ∧ ∀ cb2, handle s1 "b" (Event.like_video "L" true cb2) = some (s1, []))
    ∧ (∀ lobby head rest, objGet [("L", votedLobby)] "L" = some lobby →
        lobby.queue = head :: rest → "b" ∉ head.likedBy →
        ∀ cb2, handle [("L", votedLobby)] "b" (Event.like_video "L" true cb2)
          = some ([("L", votedLobby)], []))
    ∧ (∃ s1 out1,
        handle [("L", votedLobby)] "b" (Event.dislike_video "L" true true) = some (s1, out1)
        ∧ ∀ cb2, handle s1 "b" (Event.dislike_video "L" true cb2) = some (s1, []))
    ∧ (∀ lobby head rest, objGet [("L", votedLobby)] "L" = some lobby →
        lobby.queue = head :: rest → "b" ∉ head.dislikedBy →
        ∀ cb2, handle [("L", votedLobby)] "b" (Event.dislike_video "L" true cb2)
          = some ([("L", votedLobby)], [])) :=
  undo_twice_is_once [("L", votedLobby)] votedRegistry_reachable "b" "L" votedLobby
    (by decide) true


/-! ## Disconnect -/

theorem twoLobbyRegistry_reachable : Reachable twoLobbyRegistry := by
  have h : (run [] [("a", Event.create_lobby "L1" "Alice" true),
      ("a", Event.create_lobby "L2" "Alice" true),
      ("b", Event.join_lobby "L2" "Bob" true)]).map Prod.fst = some twoLobbyRegistry := by
    decide
  exact reachable_of_run_fst h

theorem rejoinedRegistry_reachable : Reachable [("L", rejoinedLobby)] := by
  have h : (run [] [("a", Event.create_lobby "L" "Alice" true),
      ("b", Event.join_lobby "L" "Bob" true),
      ("a", Event.join_lobby "L" "Alice" true)]).map Prod.fst
      = some [("L", rejoinedLobby)] := by
    decide
  exact reachable_of_run_fst h

/-- C15 (fails on the code): socket `a` is `host` of lobby `L2`, where Bob is a
member too, and is also in the lobby `L1` registered before it; its disconnect
cleans up `L1` only, so `L2` keeps `a` as member and host and no `host_changed`
goes out.  And in the lobby `L` where the host `a` has sent `join_lobby` again,
its disconnect removes `a` without promoting Bob: `host` stays `a`, no member
is flagged and no `host_changed` goes out. -/
theorem disconnect_of_host_without_promotion :
    Reachable twoLobbyRegistry
    ∧ handle twoLobbyRegistry "a" Event.disconnect
        = some ([("L2", pairLobby)],
            [⟨Dest.others "L1" "a", Msg.user_left "Alice"⟩, ⟨Dest.to "L1", Msg.user_list []⟩])
    ∧ Reachable [("L", rejoinedLobby)]
    ∧ handle [("L", rejoinedLobby)] "a" Event.disconnect
        = some ([("L", { rejoinedLobby with users := [("b", ⟨"Bob", false⟩)] })],
            [⟨Dest.others "L" "a", Msg.user_left "Alice"⟩,
             ⟨Dest.to "L", Msg.user_list [⟨"b", "Bob", false⟩]⟩]) :=
  ⟨twoLobbyRegistry_reachable, by decide, rejoinedRegistry_reachable, by decide⟩

/-- C16 (fails on the code): socket `a` creates the lobbies `L1` and `L2` and
disconnects; the loop of the handler stops after `L1`, and the reachable
registry still holds `L2` with `a` as its member. -/
theorem disconnect_leaves_second_lobby :
    (run [] [("a", Event.create_lobby "L1" "Alice" true),
        ("a", Event.create_lobby "L2" "Alice" true), ("a", Event.disconnect)]).map Prod.fst
      = some [("L2", freshLobby "a" "Alice")]
    ∧ objGet (freshLobby "a" "Alice").users "a" = some ⟨"Alice", true⟩ := by
  decide

/-! ## Targets of the host actions -/

/-- C17 (fails on the code): the host `a` of the reachable lobby `L` names the
target `toString`, which is no member; `lobby.users["toString"]` is the
function every object inherits, so the target test passes: `kick_user` answers
with success, `ban_user` extends the banned array, and `transfer_host` makes
`toString` the host and clears the flag of `a`. -/
theorem inherited_target_passes_check :
    Reachable twoMemberRegistry
    ∧ objGet twoMemberLobby.users "toString" = none
    ∧ handle twoMemberRegistry "a" (Event.kick_user "L" "toString" true)
        = some (twoMemberRegistry,
            [⟨Dest.to "toString", Msg.kicked "L"⟩, ⟨Dest.to "L", Msg.user_left "toString"⟩,
             ⟨Dest.to "L", Msg.user_list [⟨"a", "Alice", true⟩, ⟨"b", "Bob", false⟩]⟩,
             ⟨Dest.callback, Msg.success⟩])
    ∧ (handle twoMemberRegistry "a" (Event.ban_user "L" "toString" true)).map Prod.fst
        = some [("L", { twoMemberLobby with banned := some ["toString"] })]
    ∧ (handle twoMemberRegistry "a" (Event.transfer_host "L" "toString" true)).map Prod.fst
        = some [("L", { twoMemberLobby with
            host := "toString", hostName := "toString",
            users := [("a", ⟨"Alice", false⟩), ("b", ⟨"Bob", false⟩)] })] :=
  ⟨twoMemberRegistry_reachable, by decide, by decide, by decide, by decide⟩

/-- For a target that is the requester itself, or that is neither a member nor
the name of an inherited function, the three host actions answer with their
target error and leave the registry as it is. -/
theorem invalid_target_rejected (s : Lobbies) (c target : ConnId) (lobbyId : LobbyId)
    (lobby : Lobby) (cb : Bool) (hl : objGet s lobbyId = some lobby) (hh : lobby.host = c)
    (ht : target = c ∨ (objGet lobby.users target = none ∧ inheritedName target = none)) :
    handle s c (Event.kick_user lobbyId target cb)
        = some (s, callback cb (Msg.error "Invalid user to kick"))
    ∧ handle s c (Event.ban_user lobbyId target cb)
        = some (s, callback cb (Msg.error "Invalid user to ban"))
    ∧ handle s c (Event.transfer_host lobbyId target cb)
        = some (s, callback cb (Msg.error "Invalid user to transfer host role")) := by
  rcases ht with ht | ⟨h1, h2⟩
  · subst ht
    refine ⟨?_, ?_, ?_⟩
    · simp only [handle, kick_user, hl, hh, ne_eq, not_true_eq_false, if_false]
      cases objGet lobby.users target with
      | none => cases inheritedName target <;> simp
      | some u => simp
    · simp only [handle, ban_user, hl, hh, ne_eq, not_true_eq_false, if_false]
      cases objGet lobby.users target with
      | none => cases inheritedName target <;> simp
      | some u => simp
    · simp only [handle, transfer_host, hl, hh, ne_eq, not_true_eq_false, if_false]
      cases objGet lobby.users target with
      | none => cases inheritedName target <;> simp
      | some u => simp
  · refine ⟨?_, ?_, ?_⟩
    · simp [handle, kick_user, hl, hh, h1, h2]
    · simp [handle, ban_user, hl, hh, h1, h2]
    · simp [handle, transfer_host, hl, hh, h1, h2]


/-! ## Host transfer -/

theorem mem_keys_of_objGet {β : Type} {o : List (String × β)} {k : String} {v : β}
    (h : objGet o k = some v) : k ∈ o.map Prod.fst :=
  List.mem_map_of_mem Prod.fst (objGet_mem h)

theorem keys_objSet_of_objGet {β : Type} {o : List (String × β)} {k : String} {v w : β}
    (h : objGet o k = some v) : (objSet o k w).map Prod.fst = o.map Prod.fst := by
  rw [keys_objSet, if_pos (mem_keys_of_objGet h)]

/-- C18: when the host `h` of a registered lobby, itself a member, sends
`transfer_host` naming another member `n`, the lobby is stored with `host = n`,
`hostName` the name of `n`, the flag of `n` set and that of `h` cleared, every
other member, the order of the members, the queue and the banned array as
before, the other lobbies untouched, and `host_changed` with the name of `n`
goes to the room. -/
theorem transfer_host_effect (s : Lobbies) (h n : ConnId) (lobbyId : LobbyId) (lobby : Lobby)
    (me target : User) (cb : Bool) (hl : objGet s lobbyId = some lobby)
    (hh : lobby.host = h) (hme : objGet lobby.users h = some me)
    (hn : objGet lobby.users n = some target) (hne : n ≠ h) :
    ∃ next t,
      handle s h (Event.transfer_host lobbyId n cb)
        = some (t, [⟨Dest.to lobbyId, Msg.host_changed target.name⟩,
                    ⟨Dest.to lobbyId, Msg.user_list (userList next.users)⟩]
                   ++ callback cb Msg.success)
      ∧ objGet t lobbyId = some next
      ∧ (∀ other, other ≠ lobbyId → objGet t other = objGet s other)
      ∧ next.host = n ∧ next.hostName = target.name
      ∧ objGet next.users n = some { target with isHost := true }
      ∧ objGet next.users h = some { me with isHost := false }
      ∧ (∀ k, k ≠ h → k ≠ n → objGet next.users k = objGet lobby.users k)
      ∧ next.users.map Prod.fst = lobby.users.map Prod.fst
      ∧ next.queue = lobby.queue ∧ next.banned = lobby.banned
      ∧ next.currentVideo = lobby.currentVideo := by
  have hne2 : ¬ h = n := fun e => hne e.symm
  have hn1 : objGet (objSet lobby.users h { me with isHost := false }) n = some target := by
    simp [objGet_objSet, hne2, hn]
  refine ⟨{ lobby with
      users := objSet (objSet lobby.users h { me with isHost := false }) n
        { target with isHost := true },
      host := n, hostName := target.name },
    objSet s lobbyId { lobby with
      users := objSet (objSet lobby.users h { me with isHost := false }) n
        { target with isHost := true },
      host := n, hostName := target.name },
    ?_, ?_, ?_, rfl, rfl, ?_, ?_, ?_, ?_, rfl, rfl, rfl⟩
  · simp only [handle, transfer_host, hl, hh, hn, hne, hme, hn1, ne_eq, not_true_eq_false,
      if_false]
  · simp [objGet_objSet]
  · intro other ho
    have ho2 : ¬ lobbyId = other := fun e => ho e.symm
    simp [objGet_objSet, ho2]
  · simp [objGet_objSet]
  · simp [objGet_objSet, hne]
  · intro k hk1 hk2
    have a1 : ¬ n = k := fun e => hk2 e.symm
    have a2 : ¬ h = k := fun e => hk1 e.symm
    simp [objGet_objSet, a1, a2]
  · rw [keys_objSet_of_objGet hn1, keys_objSet_of_objGet hme]

theorem transfer_host_effect_witness :
    ∃ next t,
      handle twoMemberRegistry "a" (Event.transfer_host "L" "b" true)
        = some (t, [⟨Dest.to "L", Msg.host_changed "Bob"⟩,
                    ⟨Dest.to "L", Msg.user_list (userList next.users)⟩]
                   ++ callback true Msg.success)
      ∧ objGet t "L" = some next
      ∧ (∀ other, other ≠ "L" → objGet t other = objGet twoMemberRegistry other)
      ∧ next.host = "b" ∧ next.hostName = "Bob"
      ∧ objGet next.users "b" = some ⟨"Bob", true⟩
      ∧ objGet next.users "a" = some ⟨"Alice", false⟩
      ∧ (∀ k, k ≠ "a" → k ≠ "b" → objGet next.users k = objGet twoMemberLobby.users k)
      ∧ next.users.map Prod.fst = twoMemberLobby.users.map Prod.fst
      ∧ next.queue = twoMemberLobby.queue ∧ next.banned = twoMemberLobby.banned
      ∧ next.currentVideo = twoMemberLobby.currentVideo :=
  transfer_host_effect twoMemberRegistry "a" "b" "L" twoMemberLobby ⟨"Alice", true⟩
    ⟨"Bob", false⟩ true (by decide) (by decide) (by decide) (by decide) (by decide)

/-! ## Skip and delete -/

/-- C19: `skip_video` from the host of a registered lobby stores the lobby with
the queue that the rotation of the specification gives: for a queue
`head :: rest` that is `rest ++ [head with played = true]`, of the same length,
with the three messages of a skip; on an empty queue the registry is unchanged
and nothing is emitted or replied. -/
theorem skip_video_is_rotation (s : Lobbies) (c : ConnId) (lobbyId : LobbyId) (lobby : Lobby)
    (cb : Bool) (hl : objGet s lobbyId = some lobby) (hh : lobby.host = c) :
    (∀ head rest, lobby.queue = head :: rest →
      ∃ t, handle s c (Event.skip_video lobbyId cb)
          = some (t, broadcastQueue t lobbyId
              ++ [⟨Dest.to lobbyId, Msg.video_skipped { head with played := true }⟩]
              ++ callback cb Msg.success)
        ∧ objGet t lobbyId = some { lobby with queue := specSkip lobby.queue }
        ∧ (∀ other, other ≠ lobbyId → objGet t other = objGet s other)
        ∧ specSkip lobby.queue = rest ++ [{ head with played := true }]
        ∧ (specSkip lobby.queue).length = lobby.queue.length)
    ∧ (lobby.queue = [] → handle s c (Event.skip_video lobbyId cb) = some (s, [])) := by
  constructor
  · intro head rest hq
    refine ⟨objSet s lobbyId { lobby with queue := rest ++ [{ head with played := true }] },
      ?_, ?_, ?_, ?_, ?_⟩
    · simp only [handle, skip_video, hl, hh, hq, ne_eq, not_true_eq_false, if_false]
    · simp [objGet_objSet, hq, specSkip]
    · intro other ho
      have ho2 : ¬ lobbyId = other := fun e => ho e.symm
      simp [objGet_objSet, ho2]
    · simp [hq, specSkip]
    · simp [hq, specSkip]
  · intro hq
    simp [handle, skip_video, hl, hh, hq]

theorem skip_video_is_rotation_witness :
    (∀ head rest, mixedLobby.queue = head :: rest →
      ∃ t, handle [("L", mixedLobby)] "a" (Event.skip_video "L" true)
          = some (t, broadcastQueue t "L"
              ++ [⟨Dest.to "L", Msg.video_skipped { head with played := true }⟩]
              ++ callback true Msg.success)
        ∧ objGet t "L" = some { mixedLobby with queue := specSkip mixedLobby.queue }
        ∧ (∀ other, other ≠ "L" → objGet t other = objGet [("L", mixedLobby)] other)
        ∧ specSkip mixedLobby.queue = rest ++ [{ head with played := true }]
        ∧ (specSkip mixedLobby.queue).length = mixedLobby.queue.length)
    ∧ (mixedLobby.queue = [] →
        handle [("L", mixedLobby)] "a" (Event.skip_video "L" true)
          = some ([("L", mixedLobby)], [])) :=
  skip_video_is_rotation [("L", mixedLobby)] "a" "L" mixedLobby true (by decide) (by decide)

/-- C20: `delete_video` from the host of a registered lobby with an integer
`index`: for `0 ≤ index < length` the lobby is stored with the entries before
`index` followed by the entries after it, one entry fewer; for any other index
the registry is unchanged. -/
theorem delete_video_effect (s : Lobbies) (c : ConnId) (lobbyId : LobbyId) (lobby : Lobby)
    (index : Int) (cb : Bool) (hl : objGet s lobbyId = some lobby) (hh : lobby.host = c) :
    (0 ≤ index ∧ index < lobby.queue.length →
      ∃ t out, handle s c (Event.delete_video lobbyId index cb) = some (t, out)
        ∧ objGet t lobbyId = some { lobby with
            queue := lobby.queue.take index.toNat ++ lobby.queue.drop (index.toNat + 1) }
        ∧ (∀ other, other ≠ lobbyId → objGet t other = objGet s other)
        ∧ (lobby.queue.take index.toNat ++ lobby.queue.drop (index.toNat + 1)).length + 1
            = lobby.queue.length)
    ∧ (¬ (0 ≤ index ∧ index < lobby.queue.length) →
        handle s c (Event.delete_video lobbyId index cb) = some (s, [])) := by
  constructor
  · intro hi
    refine ⟨objSet s lobbyId { lobby with queue := lobby.queue.eraseIdx index.toNat },
      broadcastQueue
        (objSet s lobbyId { lobby with queue := lobby.queue.eraseIdx index.toNat }) lobbyId
        ++ callback cb Msg.success, ?_, ?_, ?_, ?_⟩
    · simp only [handle, delete_video, hl, hh, hi, ne_eq, not_true_eq_false, if_false,
        and_self, if_true]
    · simp [objGet_objSet, List.eraseIdx_eq_take_drop_succ]
    · intro other ho
      have ho2 : ¬ lobbyId = other := fun e => ho e.symm
      simp [objGet_objSet, ho2]
    · have h1 : index.toNat < lobby.queue.length := by omega
      simp only [List.length_append, List.length_take, List.length_drop]
      omega
  · intro hi
    simp [handle, delete_video, hl, hh, hi]

theorem delete_video_effect_witness :
    (0 ≤ (1 : Int) ∧ (1 : Int) < mixedLobby.queue.length →
      ∃ t out, handle [("L", mixedLobby)] "a" (Event.delete_video "L" 1 true) = some (t, out)
        ∧ objGet t "L" = some { mixedLobby with
            queue := mixedLobby.queue.take (1 : Int).toNat
              ++ mixedLobby.queue.drop ((1 : Int).toNat + 1) }
        ∧ (∀ other, other ≠ "L" → objGet t other = objGet [("L", mixedLobby)] other)
        ∧ (mixedLobby.queue.take (1 : Int).toNat
              ++ mixedLobby.queue.drop ((1 : Int).toNat + 1)).length + 1
            = mixedLobby.queue.length)
    ∧ (¬ (0 ≤ (1 : Int) ∧ (1 : Int) < mixedLobby.queue.length) →
        handle [("L", mixedLobby)] "a" (Event.delete_video "L" 1 true)
          = some ([("L", mixedLobby)], [])) :=
  delete_video_effect [("L", mixedLobby)] "a" "L" mixedLobby 1 true (by decide) (by decide)


/-! ## Promotion on disconnect, where it happens -/

theorem length_objSet_of_objGet {β : Type} {o : List (String × β)} {k : String} {v w : β}
    (h : objGet o k = some v) : (objSet o k w).length = o.length := by
  have hk := congrArg List.length (keys_objSet_of_objGet (w := w) h)
  simpa using hk

theorem objDelete_cons {β : Type} (k0 : String) (v0 : β) (o : List (String × β))
    (k : String) :
    objDelete ((k0, v0) :: o) k
      = if k0 = k then objDelete o k else (k0, v0) :: objDelete o k := by
  by_cases h : k0 = k <;> simp [objDelete, List.filter_cons, h]

theorem objDelete_of_not_mem_keys {β : Type} {o : List (String × β)} {k : String}
    (h : k ∉ o.map Prod.fst) : objDelete o k = o := by
  simp only [objDelete]
  rw [List.filter_eq_self]
  intro q hq
  have : q.1 ≠ k := fun e => h (e ▸ List.mem_map_of_mem Prod.fst hq)
  simpa using this

theorem length_objDelete {β : Type} {o : List (String × β)} (hn : NodupKeys o) {k : String}
    {v : β} (h : objGet o k = some v) : (objDelete o k).length + 1 = o.length := by
  induction o with
  | nil => simp [objGet] at h
  | cons p o ih =>
    obtain ⟨k0, v0⟩ := p
    simp only [NodupKeys, List.map_cons, List.nodup_cons] at hn
    simp only [objGet] at h
    rw [objDelete_cons]
    by_cases h0 : k0 = k
    · subst h0
      rw [if_pos rfl, objDelete_of_not_mem_keys hn.1, List.length_cons]
    · rw [if_neg h0] at h ⊢
      have := ih hn.2 h
      rw [List.length_cons, List.length_cons]
      omega

theorem LobbyStep.nodupKeys_users {c : ConnId} {lobby next : Lobby}
    (hstep : LobbyStep c lobby next) (h : NodupKeys lobby.users) : NodupKeys next.users := by
  cases hstep with
  | join userName hb => exact nodupKeys_objSet h _ _
  | add user url hu hre hdup => exact h
  | skip video rest hh hq => exact h
  | kick target u hh ht hne => exact nodupKeys_objDelete h _
  | delete index hh h0 h1 => exact h
  | likeUndo user video rest hu hq hv => exact h
  | like user video rest hu hq hv => exact h
  | dislikeUndo user video rest hu hq hv => exact h
  | dislike user video rest hu hq hv => exact h
  | ban target u hh ht hne => exact nodupKeys_objDelete h _
  | transfer target u me newHost hh ht hne hme hnew =>
    exact nodupKeys_objSet (nodupKeys_objSet h _ _) _ _
  | kickInherited target name hh ht hin hne => exact nodupKeys_objDelete h _
  | banInherited target name hh ht hin hne => exact nodupKeys_objDelete h _
  | transferInherited target name me hh ht hin hne hme => exact nodupKeys_objSet h _ _
  | leave user hu hf => exact nodupKeys_objDelete h _
  | leavePromote user newHostId newHost others hu hf hrest =>
    exact nodupKeys_objSet (nodupKeys_objDelete h _) _ _

/-- In a reachable registry no lobby lists a socket twice among its members. -/
theorem reachable_nodupKeys_users {s : Lobbies} (hs : Reachable s) :
    ∀ p ∈ s, NodupKeys p.2.users := by
  induction hs with
  | init => intro p hp; simp at hp
  | step c e _ hh ih =>
    intro p hp
    rcases handle_entry hh hp with (h | ⟨lobby, hl, hstep⟩) | ⟨uuid, hostName, cb, _, rfl⟩
    · exact ih p h
    · exact hstep.nodupKeys_users (ih _ hl)
    · simp [NodupKeys, freshLobby]

theorem disconnectLoop_first (s : Lobbies) (c : ConnId) (lobbyId : LobbyId) (lobby : Lobby)
    (user : User) (newHostId : ConnId) (newHost : User) (others : List (ConnId × User))
    (post : Lobbies) (hu : objGet lobby.users c = some user) (hf : user.isHost = true)
    (hrest : objDelete lobby.users c = (newHostId, newHost) :: others) :
    ∀ (pre : Lobbies), (∀ p ∈ pre, objGet p.2.users c = none) →
      disconnectLoop s c (pre ++ (lobbyId, lobby) :: post)
        = (objSet s lobbyId
            { lobby with
              users := objSet (objDelete lobby.users c) newHostId { newHost with isHost := true },
              host := newHostId, hostName := newHost.name },
           [⟨Dest.others lobbyId c, Msg.user_left user.name⟩,
            ⟨Dest.to lobbyId, Msg.user_list (userList (objDelete lobby.users c))⟩,
            ⟨Dest.to lobbyId, Msg.host_changed newHost.name⟩]) := by
  intro pre
  induction pre with
  | nil =>
    intro _
    simp only [List.nil_append, disconnectLoop, hu, hf, if_true, hrest]
    rfl
  | cons q pre ih =>
    intro hpre
    obtain ⟨k, l⟩ := q
    have hq : objGet l.users c = none := hpre (k, l) (List.mem_cons_self _ _)
    simp only [List.cons_append, disconnectLoop, hq]
    exact ih (fun p hp => hpre p (List.mem_cons_of_mem _ hp))

/-- Where the promotion on disconnect does happen: when lobby `lobbyId` is the
first registered lobby that holds socket `c`, the record of `c` carries the
host flag and other members remain, the first remaining member is flagged and
made `host` with its name as `hostName`, the members are one fewer, and
`host_changed` with the name of the new host goes to the room. -/
theorem disconnect_promotes_first (pre post : Lobbies) (c : ConnId) (lobbyId : LobbyId)
    (lobby : Lobby) (user : User) (newHostId : ConnId) (newHost : User)
    (others : List (ConnId × User)) (hpre : ∀ p ∈ pre, objGet p.2.users c = none)
    (hu : objGet lobby.users c = some user) (hf : user.isHost = true)
    (hnd : NodupKeys lobby.users)
    (hrest : objDelete lobby.users c = (newHostId, newHost) :: others) :
    ∃ next,
      handle (pre ++ (lobbyId, lobby) :: post) c Event.disconnect
        = some (objSet (pre ++ (lobbyId, lobby) :: post) lobbyId next,
            [⟨Dest.others lobbyId c, Msg.user_left user.name⟩,
             ⟨Dest.to lobbyId, Msg.user_list (userList (objDelete lobby.users c))⟩,
             ⟨Dest.to lobbyId, Msg.host_changed newHost.name⟩])
      ∧ next.host = newHostId ∧ next.hostName = newHost.name
      ∧ objGet next.users newHostId = some { newHost with isHost := true }
      ∧ objGet next.users c = none
      ∧ next.users.map Prod.fst = (objDelete lobby.users c).map Prod.fst
      ∧ next.users.length + 1 = lobby.users.length := by
  have hg : objGet (objDelete lobby.users c) newHostId = some newHost := by
    rw [hrest]
    simp [objGet]
  have hne : newHostId ≠ c := by
    intro e
    have hm : (newHostId, newHost) ∈ objDelete lobby.users c := by
      rw [hrest]
      exact List.mem_cons_self _ _
    exact (mem_objDelete hm).2 e
  refine ⟨{ lobby with
      users := objSet (objDelete lobby.users c) newHostId { newHost with isHost := true },
      host := newHostId, hostName := newHost.name }, ?_, rfl, rfl, ?_, ?_, ?_, ?_⟩
  · simp only [handle, disconnect]
    rw [disconnectLoop_first _ c lobbyId lobby user newHostId newHost others post hu hf hrest
      pre hpre]
  · simp [objGet_objSet]
  · simp [objGet_objSet, hne, objGet_objDelete]
  · exact keys_objSet_of_objGet hg
  · rw [show ({ lobby with
        users := objSet (objDelete lobby.users c) newHostId { newHost with isHost := true },
        host := newHostId, hostName := newHost.name } : Lobby).users
        = objSet (objDelete lobby.users c) newHostId { newHost with isHost := true } from rfl,
      length_objSet_of_objGet hg]
    exact length_objDelete hnd hu


/-! ## Adding a video -/

/-- C21: `add_video` from a member `m` of a registered lobby, with a url that
matches the link pattern and is the url of no queued entry, stores the lobby
with the entry `{url, addedBy: name of m, likes: 0, dislikes: 0, likedBy: [],
dislikedBy: [], played: false}` appended to the unchanged queue, leaves the
other lobbies alone, and broadcasts the queue before answering with success; in
particular creating a lobby as Alice and adding `https://youtu.be/abc12345678`
gives the queue with that one entry. -/
theorem add_video_appends (s : Lobbies) (m : ConnId) (lobbyId : LobbyId) (lobby : Lobby)
    (user : User) (url : String) (cb : Bool) (hl : objGet s lobbyId = some lobby)
    (hu : objGet lobby.users m = some user) (hre : ytRegexTest url = true)
    (hnew : ∀ v ∈ lobby.queue, v.url ≠ url) :
    (∃ t, handle s m (Event.add_video lobbyId url cb)
          = some (t, broadcastQueue t lobbyId ++ callback cb Msg.success)
      ∧ objGet t lobbyId = some { lobby with
          queue := lobby.queue ++
            [{ url := url, addedBy := user.name, likes := 0, dislikes := 0, likedBy := [],
               dislikedBy := [], played := false }] }
      ∧ ∀ other, other ≠ lobbyId → objGet t other = objGet s other)
    ∧ (run [] [("a", Event.create_lobby "L" "Alice" true),
          ("a", Event.add_video "L" "https://youtu.be/abc12345678" true)]).map
        (fun r => (objGet r.1 "L").map fun l => l.queue)
      = some (some
          [{ url := "https://youtu.be/abc12345678", addedBy := "Alice", likes := 0,
             dislikes := 0, likedBy := [], dislikedBy := [], played := false }]) := by
  have hany : (lobby.queue.any fun v => decide (v.url = url)) = false := by
    rw [List.any_eq_false]
    intro v hv
    simpa using hnew v hv
  refine ⟨⟨objSet s lobbyId { lobby with
      queue := lobby.queue ++
        [{ url := url, addedBy := user.name, likes := 0, dislikes := 0, likedBy := [],
           dislikedBy := [], played := false }] }, ?_, ?_, ?_⟩,
    by decide⟩
  · simp only [handle, add_video, hl, hu, hre, hany, not_true_eq_false, if_false,
      Bool.false_eq_true]
  · simp [objGet_objSet]
  · intro other ho
    have ho2 : ¬ lobbyId = other := fun e => ho e.symm
    simp [objGet_objSet, ho2]

theorem add_video_appends_witness :
    (∃ t, handle [("L", freshLobby "a" "Alice")] "a"
            (Event.add_video "L" "https://youtu.be/abc12345678" true)
          = some (t, broadcastQueue t "L" ++ callback true Msg.success)
      ∧ objGet t "L" = some { freshLobby "a" "Alice" with
          queue := (freshLobby "a" "Alice").queue
            ++ [{ url := "https://youtu.be/abc12345678", addedBy := "Alice", likes := 0,
                  dislikes := 0, likedBy := [], dislikedBy := [], played := false }] }
      ∧ ∀ other, other ≠ "L" →
          objGet t other = objGet [("L", freshLobby "a" "Alice")] other)
    ∧ (run [] [("a", Event.create_lobby "L" "Alice" true),
          ("a", Event.add_video "L" "https://youtu.be/abc12345678" true)]).map
        (fun r => (objGet r.1 "L").map fun l => l.queue)
      = some (some
          [{ url := "https://youtu.be/abc12345678", addedBy := "Alice", likes := 0,
             dislikes := 0, likedBy := [], dislikedBy := [], played := false }]) :=
  add_video_appends [("L", freshLobby "a" "Alice")] "a" "L" (freshLobby "a" "Alice")
    ⟨"Alice", true⟩ "https://youtu.be/abc12345678" true (by decide) (by decide) (by decide)
    (by decide)

/-! ## The host stays a member while it is connected -/

theorem HostOk.mono {gone gone2 : List ConnId} {lobby : Lobby}
    (hsub : ∀ x ∈ gone, x ∈ gone2) (h : HostOk gone lobby) : HostOk gone2 lobby := by
  rcases h with h | h | h
  · exact Or.inl h
  · exact Or.inr (Or.inl (hsub _ h))
  · exact Or.inr (Or.inr h)

/-- A step in which the sender does not leave keeps the host a member, unless
the host had gone or is an inherited name. -/
theorem ActionStep.hostOk {c : ConnId} {gone : List ConnId} {lobby next : Lobby}
    (hstep : ActionStep c lobby next) (h : HostOk gone lobby) : HostOk gone next := by
  cases hstep with
  | join userName hb =>
    rcases h with h | h | h
    · refine Or.inl ?_
      simp only [objGet_objSet]
      split
      · rfl
      · exact h
    · exact Or.inr (Or.inl h)
    · exact Or.inr (Or.inr h)
  | add user url hu hre hdup => exact h
  | skip video rest hh hq => exact h
  | kick target u hh ht hne =>
    rcases h with h | h | h
    · refine Or.inl ?_
      have hne2 : ¬ target = lobby.host := fun e => hne (e.trans hh)
      simp only [objGet_objDelete, hne2, if_false]
      exact h
    · exact Or.inr (Or.inl h)
    · exact Or.inr (Or.inr h)
  | delete index hh h0 h1 => exact h
  | likeUndo user video rest hu hq hv => exact h
  | like user video rest hu hq hv => exact h
  | dislikeUndo user video rest hu hq hv => exact h
  | dislike user video rest hu hq hv => exact h
  | ban target u hh ht hne =>
    rcases h with h | h | h
    · refine Or.inl ?_
      have hne2 : ¬ target = lobby.host := fun e => hne (e.trans hh)
      simp only [objGet_objDelete, hne2, if_false]
      exact h
    · exact Or.inr (Or.inl h)
    · exact Or.inr (Or.inr h)
  | transfer target u me newHost hh ht hne hme hnew =>
    refine Or.inl ?_
    simp [objGet_objSet]
  | kickInherited target name hh ht hin hne =>
    rcases h with h | h | h
    · refine Or.inl ?_
      have hne2 : ¬ target = lobby.host := fun e => hne (e.trans hh)
      simp only [objGet_objDelete, hne2, if_false]
      exact h
    · exact Or.inr (Or.inl h)
    · exact Or.inr (Or.inr h)
  | banInherited target name hh ht hin hne =>
    rcases h with h | h | h
    · refine Or.inl ?_
      have hne2 : ¬ target = lobby.host := fun e => hne (e.trans hh)
      simp only [objGet_objDelete, hne2, if_false]
      exact h
    · exact Or.inr (Or.inl h)
    · exact Or.inr (Or.inr h)
  | transferInherited target name me hh ht hin hne hme =>
    refine Or.inr (Or.inr ?_)
    simp [hin]

/-- A step of the disconnecting socket `c` keeps the host a member, unless the
host has gone, `c` now included, or is an inherited name. -/
theorem LobbyStep.hostOk_leave {c : ConnId} {gone : List ConnId} {lobby next : Lobby}
    (hstep : LobbyStep c lobby next) (h : HostOk gone lobby) : HostOk (c :: gone) next := by
  have hsub : ∀ x ∈ gone, x ∈ c :: gone := fun x hx => List.mem_cons_of_mem _ hx
  cases hstep with
  | join userName hb => exact ((ActionStep.join lobby userName hb).hostOk h).mono hsub
  | add user url hu hre hdup =>
    exact ((ActionStep.add lobby user url hu hre hdup).hostOk h).mono hsub
  | skip video rest hh hq => exact ((ActionStep.skip lobby video rest hh hq).hostOk h).mono hsub
  | kick target u hh ht hne =>
    exact ((ActionStep.kick lobby target u hh ht hne).hostOk h).mono hsub
  | delete index hh h0 h1 =>
    exact ((ActionStep.delete lobby index hh h0 h1).hostOk h).mono hsub
  | likeUndo user video rest hu hq hv =>
    exact ((ActionStep.likeUndo lobby user video rest hu hq hv).hostOk h).mono hsub
  | like user video rest hu hq hv =>
    exact ((ActionStep.like lobby user video rest hu hq hv).hostOk h).mono hsub
  | dislikeUndo user video rest hu hq hv =>
    exact ((ActionStep.dislikeUndo lobby user video rest hu hq hv).hostOk h).mono hsub
  | dislike user video rest hu hq hv =>
    exact ((ActionStep.dislike lobby user video rest hu hq hv).hostOk h).mono hsub
  | ban target u hh ht hne =>
    exact ((ActionStep.ban lobby target u hh ht hne).hostOk h).mono hsub
  | transfer target u me newHost hh ht hne hme hnew =>
    exact ((ActionStep.transfer lobby target u me newHost hh ht hne hme hnew).hostOk h).mono
      hsub
  | kickInherited target name hh ht hin hne =>
    exact ((ActionStep.kickInherited lobby target name hh ht hin hne).hostOk h).mono hsub
  | banInherited target name hh ht hin hne =>
    exact ((ActionStep.banInherited lobby target name hh ht hin hne).hostOk h).mono hsub
  | transferInherited target name me hh ht hin hne hme =>
    exact ((ActionStep.transferInherited lobby target name me hh ht hin hne hme).hostOk
      h).mono hsub
  | leave user hu hf =>
    by_cases hc : lobby.host = c
    · exact Or.inr (Or.inl (hc ▸ List.mem_cons_self _ _))
    · rcases h with h | h | h
      · refine Or.inl ?_
        have hne2 : ¬ c = lobby.host := fun e => hc e.symm
        simp only [objGet_objDelete, hne2, if_false]
        exact h
      · exact Or.inr (Or.inl (hsub _ h))
      · exact Or.inr (Or.inr h)
  | leavePromote user newHostId newHost others hu hf hrest =>
    refine Or.inl ?_
    simp [objGet_objSet]

theorem ActionAfter.actionEntry {s t : Lobbies} {c : ConnId} (h : ActionAfter s c t)
    {p : LobbyId × Lobby} (hp : p ∈ t) :
    p ∈ s ∨ ∃ lobby, (p.1, lobby) ∈ s ∧ ActionStep c lobby p.2 := by
  rcases h with rfl | ⟨lobbyId, lobby, next, hl, hstep, rfl⟩
  · exact Or.inl hp
  · rcases mem_objSet hp with h | h
    · exact Or.inl h
    · subst h
      exact Or.inr ⟨lobby, hl, hstep⟩

/-- While no socket sends an event after its own disconnect, the `host` of
every registered lobby is a member of it, or has disconnected, or is the name
of an inherited function. -/
theorem live_hostOk {s : Lobbies} {gone : List ConnId} (hs : LiveReachable s gone) :
    ∀ p ∈ s, HostOk gone p.2 := by
  induction hs with
  | init => intro p hp; simp at hp
  | @step s t gone out c e _ hc hid hh ih =>
    intro p hp
    by_cases hd : e = Event.disconnect
    · simp only [hd, if_true]
      rcases handle_entry hh hp with (h | ⟨lobby, hl, hstep⟩) | ⟨uuid, hostName, cb, he, _⟩
      · exact (ih p h).mono (fun x hx => List.mem_cons_of_mem _ hx)
      · exact hstep.hostOk_leave (ih _ hl)
      · rw [hd] at he
        exact absurd he (by simp)
    · simp only [hd, if_false]
      by_cases hcr : ∃ uuid hostName cb, e = Event.create_lobby uuid hostName cb
      · obtain ⟨uuid, hostName, cb, rfl⟩ := hcr
        rcases handle_entry hh hp with (h | ⟨lobby, hl, hstep⟩) | ⟨_, hostName2, _, he, rfl⟩
        · exact ih p h
        · have ha := handle_shape hh
          rcases ha with h | ⟨_, _, _, _, rfl⟩
          · simp only [handle, create_lobby, Option.some.injEq, Prod.mk.injEq] at hh
            rcases mem_objSet (hh.1 ▸ hp) with h2 | h2
            · exact ih p h2
            · subst h2
              exact Or.inl (by simp [objGet])
          · rcases mem_objSet hp with h2 | h2
            · exact ih p h2
            · subst h2
              exact Or.inl (by simp [freshLobby, objGet])
        · exact Or.inl (by simp [freshLobby, objGet])
      · have ha := (handle_action hh hd
          (fun uuid hostName cb he => hcr ⟨uuid, hostName, cb, he⟩)).actionEntry hp
        rcases ha with h | ⟨lobby, hl, hstep⟩
        · exact ih p h
        · exact hstep.hostOk (ih _ hl)

/-- While no socket sends an event after its own disconnect, a connected socket
that is the `host` of a registered lobby is a member of it: the write
`lobby.users[socket.id].isHost = false` of `transfer_host` finds its object. -/
theorem live_host_is_member {s : Lobbies} {gone : List ConnId} (hs : LiveReachable s gone)
    {c : ConnId} (hc : c ∉ gone) (hid : inheritedName c = none) {lobbyId : LobbyId}
    {lobby : Lobby} (hl : objGet s lobbyId = some lobby) (hh : lobby.host = c) :
    ∃ me, objGet lobby.users c = some me := by
  rcases live_hostOk hs _ (objGet_mem hl) with h | h | h
  · rw [hh] at h
    exact Option.isSome_iff_exists.mp h
  · exact absurd (hh ▸ h) hc
  · rw [hh, hid] at h
    exact absurd h (by simp)


/-! ## Where a handler throws -/

theorem reorderAndBroadcast_isSome (s : Lobbies) (lobbyId : LobbyId) (lobby : Lobby)
    (head : Video) (rest : List Video) (cb : Bool) :
    reorderAndBroadcast s lobbyId { lobby with queue := head :: rest } cb ≠ none := by
  simp [reorderAndBroadcast, reorderQueue]

/-- The only places where a handler throws: the access to `lobby.users` when the
lobby identifier of `join_lobby`, `send_message`, `add_video`, `like_video` or
`dislike_video` is no registered lobby and names an inherited function, and the
write to `lobby.users[socket.id]` in `transfer_host` when the sender is `host`
of the lobby and no member of it. -/
theorem handle_eq_none {s : Lobbies} {c : ConnId} {e : Event} (h : handle s c e = none) :
    (∃ l, eventLobby e = some l ∧ objGet s l = none ∧ (inheritedName l).isSome)
    ∨ (∃ lobbyId target cb lobby, e = Event.transfer_host lobbyId target cb
        ∧ objGet s lobbyId = some lobby ∧ lobby.host = c ∧ objGet lobby.users c = none) := by
  cases e with
  | create_lobby uuid hostName cb => simp [handle, create_lobby] at h
  | join_lobby lobbyId userName cb =>
    simp only [handle, join_lobby] at h
    split at h
    · next hl =>
      split at h
      · simp at h
      · next hin => exact Or.inl ⟨lobbyId, rfl, hl, by simp [hin]⟩
    · split at h <;> simp at h
  | send_message lobbyId message now cb =>
    simp only [handle, send_message] at h
    split at h
    · next hl =>
      split at h
      · simp at h
      · next hin => exact Or.inl ⟨lobbyId, rfl, hl, by simp [hin]⟩
    · split at h <;> simp at h
  | add_video lobbyId url cb =>
    simp only [handle, add_video] at h
    split at h
    · next hl =>
      split at h
      · simp at h
      · next hin => exact Or.inl ⟨lobbyId, rfl, hl, by simp [hin]⟩
    · split at h
      · simp at h
      · split at h
        · simp at h
        · split at h <;> simp at h
  | skip_video lobbyId cb =>
    simp only [handle, skip_video] at h
    split at h
    · simp at h
    · split at h
      · simp at h
      · split at h <;> simp at h
  | kick_user lobbyId userSocketId cb =>
    simp only [handle, kick_user] at h
    split at h
    · simp at h
    · split at h
      · simp at h
      · split at h
        · split at h
          · simp at h
          · split at h <;> simp at h
        · split at h <;> simp at h
  | delete_video lobbyId index cb =>
    simp only [handle, delete_video] at h
    split at h
    · simp at h
    · split at h
      · simp at h
      · split at h <;> simp at h
  | like_video lobbyId undo cb =>
    simp only [handle, like_video] at h
    split at h
    · next hl =>
      split at h
      · simp at h
      · next hin => exact Or.inl ⟨lobbyId, rfl, hl, by simp [hin]⟩
    · split at h
      · simp at h
      · split at h
        · simp at h
        · split at h
          · split at h
            · exact absurd h (reorderAndBroadcast_isSome _ _ _ _ _ _)
            · simp at h
          · split at h
            · exact absurd h (reorderAndBroadcast_isSome _ _ _ _ _ _)
            · simp at h
  | dislike_video lobbyId undo cb =>
    simp only [handle, dislike_video] at h
    split at h
    · next hl =>
      split at h
      · simp at h
      · next hin => exact Or.inl ⟨lobbyId, rfl, hl, by simp [hin]⟩
    · split at h
      · simp at h
      · split at h
        · simp at h
        · split at h
          · split at h
            · exact absurd h (reorderAndBroadcast_isSome _ _ _ _ _ _)
            · simp at h
          · split at h
            · exact absurd h (reorderAndBroadcast_isSome _ _ _ _ _ _)
            · simp at h
  | ban_user lobbyId userSocketId cb =>
    simp only [handle, ban_user] at h
    split at h
    · simp at h
    · split at h
      · simp at h
      · split at h
        · split at h
          · simp at h
          · split at h <;> simp at h
        · split at h <;> simp at h
  | transfer_host lobbyId newHostSocketId cb =>
    simp only [handle, transfer_host] at h
    split at h
    · simp at h
    · next lobby hl =>
      split at h
      · simp at h
      · next hh =>
        have hhost : lobby.host = c := by simpa using hh
        split at h
        · split at h
          · simp at h
          · split at h
            · simp at h
            · split at h
              · next hme => exact Or.inr ⟨lobbyId, newHostSocketId, cb, lobby, rfl, hl, hhost, hme⟩
              · simp at h
        · next u hu =>
          split at h
          · simp at h
          · next hne =>
            split at h
            · next hme => exact Or.inr ⟨lobbyId, newHostSocketId, cb, lobby, rfl, hl, hhost, hme⟩
            · next me hme =>
              split at h
              · next hnone =>
                have hne2 : ¬ c = newHostSocketId := fun e => hne e.symm
                simp [objGet_objSet, hne2, hu] at hnone
              · simp at h
  | request_sync lobbyId =>
    simp only [handle, request_sync] at h
    split at h
    · simp at h
    · split at h <;> simp at h
  | host_sync lobbyId requester time state => simp [handle, host_sync] at h
  | disconnect => simp [handle, disconnect] at h
  | sync_play lobbyId time => simp [handle] at h
  | sync_pause lobbyId time => simp [handle] at h
  | sync_end lobbyId => simp [handle] at h

/-- While no socket sends an event after its own disconnect, an event of a
connected socket whose lobby identifier is a registered lobby or names no
inherited function is handled without a throw: in `transfer_host` the sender
that passed the host check is a member, `reorderQueue` runs on a non-empty
queue, and the member promoted by `disconnect` is there. -/
theorem live_handle_isSome {s : Lobbies} {gone : List ConnId} (hs : LiveReachable s gone)
    {c : ConnId} (hc : c ∉ gone) (hid : inheritedName c = none) (e : Event)
    (he : ∀ l, eventLobby e = some l → objGet s l = none → inheritedName l = none) :
    ∃ t out, handle s c e = some (t, out) := by
  cases hh : handle s c e with
  | some r => exact ⟨r.1, r.2, rfl⟩
  | none =>
    rcases handle_eq_none hh with ⟨l, h1, h2, h3⟩ | ⟨lobbyId, target, cb, lobby, _, hl, hhost, hme⟩
    · rw [he l h1 h2] at h3
      exact absurd h3 (by simp)
    · obtain ⟨me, hme2⟩ := live_host_is_member hs hc hid hl hhost
      rw [hme] at hme2
      exact absurd hme2 (by simp)

/-- The two-member registry is reached by sockets that are still connected. -/
theorem twoMemberRegistry_live :
    LiveReachable twoMemberRegistry [] := by
  have h1 := LiveReachable.step "a" (Event.create_lobby "L" "Alice" true)
    LiveReachable.init (by simp) (by decide)
    (show handle [] "a" (Event.create_lobby "L" "Alice" true) = some (_, _) from rfl)
  have h2 := LiveReachable.step "b" (Event.join_lobby "L" "Bob" true) h1 (by simp) (by decide)
    (show handle _ "b" (Event.join_lobby "L" "Bob" true) = some (_, _) from rfl)
  have h3 := LiveReachable.step "a" (Event.add_video "L" "https://youtu.be/abc12345678" true)
    h2 (by simp) (by decide)
    (show handle _ "a" (Event.add_video "L" "https://youtu.be/abc12345678" true)
      = some (_, _) from rfl)
  exact h3

/-! ## Handlers that throw -/

/-- C22 (fails on the code): `lobbies` is a plain object, so for the lobby
identifier `toString` the read `lobbies[lobbyId]` yields the inherited
function, which passes the test `!lobby` and has no `users`.  Sent by a socket
that has not disconnected, to the empty registry or to the two-member registry
reached by connected sockets, `join_lobby`, `send_message`, `add_video`,
`like_video` and `dislike_video` with that identifier throw on `lobby.users`. -/
theorem inherited_lobby_id_throws :
    objGet ([] : Lobbies) "toString" = none
    ∧ handle [] "a" (Event.join_lobby "toString" "Alice" true) = none
    ∧ LiveReachable twoMemberRegistry [] ∧ inheritedName "b" = none
    ∧ handle twoMemberRegistry "b" (Event.join_lobby "toString" "Bob" true) = none
    ∧ handle twoMemberRegistry "b" (Event.send_message "toString" "hi" "now" true) = none
    ∧ handle twoMemberRegistry "b"
        (Event.add_video "toString" "https://youtu.be/abc12345678" true) = none
    ∧ handle twoMemberRegistry "b" (Event.like_video "toString" false true) = none
    ∧ handle twoMemberRegistry "b" (Event.dislike_video "toString" false true) = none :=
  ⟨rfl, by decide, twoMemberRegistry_live, by decide, by decide, by decide, by decide,
    by decide, by decide⟩

end Radio
